import Mathlib

/-!
Verification of the step-identifier ordering, session state machine, disclosure
engine and guide-adaptation engine of the VisGuiAI backend.

The Python sources are shallowly embedded as executable Lean definitions:

* `Sorting.*`    embeds `src/backend/src/utils/sorting.py`
* `Model.*`      embeds the guide / session data model used by the services
* `Disclosure.*` embeds `src/backend/src/services/step_disclosure_service.py`
* `Sessions.*`   embeds `src/backend/src/services/session_service.py`
* `Adaptation.*` embeds `src/backend/src/services/guide_adaptation_service.py`

Python dictionaries are modelled as structures with `Option` fields where the
code uses `.get` with a possibly-absent key; raised exceptions are modelled
with `Except`; database commits are modelled as explicit state passing.
-/

namespace VisGuide

/-- Numeric value of a list of decimal digit characters, as Python `int(text)`
computes it for a string of ASCII digits. -/
def natOfDigits (cs : List Char) : Nat :=
  cs.foldl (fun n c => n * 10 + (c.toNat - 48)) 0

/-- A lowercase ASCII letter, the `[a-z]` character class. -/
def isLowerLetter (c : Char) : Bool :=
  'a' ≤ c && c ≤ 'z'

namespace Sorting

/-- Embeds the regex match `re.match(r"^(\d+)([a-z]?)$", identifier)` of
`natural_sort_key`: a non-empty digit prefix followed by at most one lowercase
letter and nothing else.  Returns the two captured groups as `(int(num), letter)`. -/
def parseIdentifier (s : String) : Option (Nat × String) :=
  let cs := s.toList
  let ds := cs.takeWhile Char.isDigit
  let rest := cs.dropWhile Char.isDigit
  if ds.isEmpty then none
  else
    match rest with
    | [] => some (natOfDigits ds, "")
    | [c] => if isLowerLetter c then some (natOfDigits ds, String.mk [c]) else none
    | _ => none

/-- `natural_sort_key` from `utils/sorting.py`: `(int(num), letter)` on a regex
match, and the fallback `(999999, identifier)` for invalid identifiers. -/
def natural_sort_key (s : String) : Nat × String :=
  (parseIdentifier s).getD (999999, s)

/-- Python `<` on strings: lexicographic comparison of code points, a proper
prefix sorting before its extensions. -/
def pyStringLtChars : List Char → List Char → Bool
  | [], [] => false
  | [], _ :: _ => true
  | _ :: _, [] => false
  | c :: cs, d :: ds =>
    if c.toNat < d.toNat then true
    else if d.toNat < c.toNat then false
    else pyStringLtChars cs ds

/-- Python `<` on strings, on the `String` wrapper. -/
def pyStringLt (a b : String) : Bool :=
  pyStringLtChars a.toList b.toList

/-- Python `<` on `tuple[int, str]` keys: compare the integers, then the
strings. -/
def keyLt (k1 k2 : Nat × String) : Bool :=
  k1.1 < k2.1 || (k1.1 == k2.1 && pyStringLt k1.2 k2.2)

/-- The non-strict order `natural_sort_key a ≤ natural_sort_key b` under which
Python's `sorted` arranges the identifiers. -/
def keyLe (a b : String) : Prop :=
  keyLt (natural_sort_key b) (natural_sort_key a) = false

instance : DecidableRel keyLe := fun _ _ => instDecidableEqBool _ _

/-- `sort_step_identifiers`: Python's stable `sorted(identifiers, key=natural_sort_key)`,
modelled as a stable structural sort under the key order. -/
def sort_step_identifiers (identifiers : List String) : List String :=
  identifiers.insertionSort keyLe

/-- `is_identifier_before(id1, id2)`: `natural_sort_key(id1) < natural_sort_key(id2)`. -/
def is_identifier_before (id1 id2 : String) : Bool :=
  keyLt (natural_sort_key id1) (natural_sort_key id2)

/-- `get_next_identifier`: position of `current` in the sorted sequence, then
the following element; `None` at the end or when `current` is absent
(`list.index` raising `ValueError`). -/
def get_next_identifier (current : String) (all_identifiers : List String) : Option String :=
  let sorted_ids := sort_step_identifiers all_identifiers
  match List.indexOf? current sorted_ids with
  | some i => sorted_ids[i + 1]?
  | none => none

/-- `get_previous_identifier`: position of `current` in the sorted sequence,
then the preceding element; `None` at the start or when `current` is absent. -/
def get_previous_identifier (current : String) (all_identifiers : List String) : Option String :=
  let sorted_ids := sort_step_identifiers all_identifiers
  match List.indexOf? current sorted_ids with
  | some i => if i > 0 then sorted_ids[i - 1]? else none
  | none => none

/-- Spec-side order on optional letter suffixes ("absent letter sorts before
any present letter", letters alphabetically), used to compare the code's
comparator with the specified `(numericPart, letterSuffix)` order. -/
def letterSuffixLt (l1 l2 : String) : Bool :=
  (l1 == "" && l2 != "") || (l1 != "" && l2 != "" && pyStringLt l1 l2)

end Sorting

namespace Adaptation

/-- A Python value appearing in the key lists of the adaptation service's
private `natural_sort_key`: either an `int` chunk or a `str` chunk. -/
inductive PyVal where
  | pyInt : Nat → PyVal
  | pyStr : String → PyVal
deriving DecidableEq, Repr

/-- Embeds `re.split("([0-9]+)", s)`: the possibly-empty non-digit segments of
`s` interleaved with its maximal digit runs, starting and ending with a
(possibly empty) non-digit segment (so `"1a"` gives `["", "1", "a"]` and
`"a1b2"` gives `["a", "1", "b", "2", ""]`).  Implemented by structural
recursion from the right: a digit character either extends the digit run that
immediately follows it or opens a new one, a non-digit character extends the
leading non-digit segment.  The result always alternates
non-digit, digit, non-digit, ... segments, with odd length. -/
def splitDigitGroups : List Char → List String
  | [] => [""]
  | c :: cs =>
    match splitDigitGroups cs with
    | [] => []
    | s0 :: rest =>
      if c.isDigit then
        if s0 == "" then
          match rest with
          | d :: rest2 => "" :: String.mk (c :: d.toList) :: rest2
          | [] => ["", String.mk [c], ""]
        else "" :: String.mk [c] :: s0 :: rest
      else String.mk (c :: s0.toList) :: rest

/-- `int(text) if text.isdigit() else text.lower()` applied to one chunk. -/
def pyChunk (t : String) : PyVal :=
  if t.toList ≠ [] && t.toList.all Char.isDigit then .pyInt (natOfDigits t.toList)
  else .pyStr (String.mk (t.toList.map Char.toLower))

/-- The key list built by the adaptation service's private `natural_sort_key`. -/
def adaptKey (s : String) : List PyVal :=
  (splitDigitGroups s.toList).map pyChunk

/-- Python `==` between two list elements: mixed `int`/`str` compare unequal
without error. -/
def pyValEq : PyVal → PyVal → Bool
  | .pyInt a, .pyInt b => a == b
  | .pyStr a, .pyStr b => a == b
  | _, _ => false

/-- Python `<` between two list elements: mixed `int`/`str` raises `TypeError`,
modelled as `none`. -/
def pyValLt : PyVal → PyVal → Option Bool
  | .pyInt a, .pyInt b => some (a < b)
  | .pyStr a, .pyStr b => some (Sorting.pyStringLt a b)
  | _, _ => none

/-- Python `<` on lists: skip `==`-equal prefixes, compare the first differing
elements (possibly raising `TypeError`), fall back to length comparison. -/
def pyListLt : List PyVal → List PyVal → Option Bool
  | [], [] => some false
  | [], _ :: _ => some true
  | _ :: _, [] => some false
  | a :: as, b :: bs => if pyValEq a b then pyListLt as bs else pyValLt a b

/-- `_is_step_before(step_id1, step_id2)` from `guide_adaptation_service.py`:
compare the chunked natural-sort keys with Python list `<`. -/
def is_step_before (step_id1 step_id2 : String) : Option Bool :=
  pyListLt (adaptKey step_id1) (adaptKey step_id2)

end Adaptation

namespace Model

/-- `SessionStatus` from `shared/schemas/guide_session.py`. -/
inductive SessionStatus where
  | active
  | paused
  | completed
  | failed
deriving DecidableEq, Repr

/-- A step dictionary of the guide structure.  Keys the code reads through
`.get` (and which adaptation sometimes leaves absent) are `Option`s. -/
structure Step where
  step_identifier : Option String := none
  step_index : Option Nat := none
  title : String := ""
  description : String := ""
  completion_criteria : String := ""
  assistance_hints : List String := []
  estimated_duration_minutes : Option Nat := none
  requires_desktop_monitoring : Option Bool := none
  visual_markers : List String := []
  prerequisites : List String := []
  status : Option String := none
  blocked_reason : Option String := none
  show_as : Option String := none
  replaces_step_identifier : Option String := none
  completed : Option Bool := none
  needs_assistance : Option Bool := none
deriving DecidableEq, Repr

/-- A section dictionary of the guide structure. -/
structure GuideSection where
  section_id : String := ""
  section_title : String := ""
  section_description : String := ""
  section_order : Nat := 0
  steps : List Step := []
deriving DecidableEq, Repr

/-- The `guide_data` dictionary: title, description and sections. -/
structure GuideData where
  title : String := ""
  description : String := ""
  sections : List GuideSection := []
deriving DecidableEq, Repr

/-- One entry of the guide's append-only `adaptation_history`. -/
structure AdaptationInfo where
  timestamp : Nat
  blocked_step_identifier : String
  blocked_reason : String
  reason_category : String
  alternatives_added : List String
  llm_provider : String
deriving DecidableEq, Repr

/-- The `StepGuideModel` row: guide data plus adaptation bookkeeping. -/
structure Guide where
  guide_data : GuideData
  adaptation_history : List AdaptationInfo := []
  last_adapted_at : Option Nat := none
deriving DecidableEq, Repr

/-- The `GuideSessionModel` row (the fields the verified services touch).
Timestamps are abstract ticks supplied by the caller as `now`. -/
structure Session where
  current_step_identifier : String
  status : SessionStatus := .active
  completed_at : Option Nat := none
  updated_at : Nat := 0
deriving DecidableEq, Repr

/-- Python `str(step.get("step_index"))`: `str(None)` is the string `"None"`. -/
def pyStrOfIndex : Option Nat → String
  | none => "None"
  | some n => toString n

/-- `step.get("step_identifier", str(step.get("step_index")))`: the identifier
key, with the stringified index as the fallback. -/
def stepIdOf (st : Step) : String :=
  st.step_identifier.getD (pyStrOfIndex st.step_index)

/-- The dual-field test
`step.get("step_identifier") == ident or str(step.get("step_index")) == ident`
used by every `_find_step_by_identifier` in the services. -/
def stepMatches (st : Step) (ident : String) : Bool :=
  st.step_identifier == some ident || pyStrOfIndex st.step_index == ident

/-- All steps of all sections in document order (the iteration order of the
services' nested `for section ... for step ...` loops). -/
def allSteps (g : GuideData) : List Step :=
  (g.sections.map GuideSection.steps).flatten

end Model

namespace Disclosure

open Model

/-- The section scan of `_find_step_by_identifier`: first step (with its
section) matching the identifier, in document order. -/
def findStepInSections (sections : List GuideSection) (step_identifier : String) :
    Option (Step × GuideSection) :=
  sections.findSome? fun sec =>
    (sec.steps.find? (fun st => stepMatches st step_identifier)).map (fun st => (st, sec))

/-- `StepDisclosureService._find_step_by_identifier`. -/
def find_step_by_identifier (g : GuideData) (step_identifier : String) :
    Option (Step × GuideSection) :=
  findStepInSections g.sections step_identifier

/-- `StepDisclosureService._get_all_step_identifiers`: identifiers of all steps
(skipping blocked ones unless `include_blocked`), natural-sorted. -/
def all_step_identifiers (g : GuideData) (include_blocked : Bool) : List String :=
  Sorting.sort_step_identifiers <|
    (allSteps g).filterMap fun st =>
      if !include_blocked && st.status == some "blocked" then none
      else some (stepIdOf st)

/-- `StepDisclosureService._find_alternatives_for_step`: the steps with status
`"alternative"` replacing the blocked identifier, in identifier-sorted order
(re-collected from the sorted identifier list by first match). -/
def find_alternatives_for_step (g : GuideData) (blocked_identifier : String) : List Step :=
  let alternatives := (allSteps g).filter fun st =>
    st.status == some "alternative" && st.replaces_step_identifier == some blocked_identifier
  let sorted_ids :=
    Sorting.sort_step_identifiers (alternatives.map (fun s => s.step_identifier.getD ""))
  sorted_ids.filterMap fun i => alternatives.find? (fun a => a.step_identifier == some i)

/-- The loop body of `_calculate_remaining_time`: skip blocked steps, flip the
`found_current` flag on the current identifier, and once it is set add each
step's `estimated_duration_minutes` (default 0). -/
def crtStep (current_identifier : String) (acc : Nat × Bool) (st : Step) : Nat × Bool :=
  if st.status == some "blocked" then acc
  else if stepIdOf st == current_identifier then (acc.1, true)
  else if acc.2 then (acc.1 + st.estimated_duration_minutes.getD 0, acc.2)
  else acc

/-- `StepDisclosureService._calculate_remaining_time`: walk all steps in
document order, skip blocked ones, start accumulating durations strictly after
the step whose identifier equals `current_identifier`. -/
def calculate_remaining_time (g : GuideData) (current_identifier : String) : Nat :=
  ((allSteps g).foldl (crtStep current_identifier) ((0 : Nat), false)).1

/-- `utils/validation.py` `validate_step_identifier`: succeeds exactly on
non-empty strings matching the regex modelled by `Sorting.parseIdentifier`. -/
def validate_step_identifier (identifier : String) : Bool :=
  (Sorting.parseIdentifier identifier).isSome

/-- What `get_current_step_only` returns: the filtered single-step view, or the
all-completed response (with the count of non-blocked steps). -/
inductive ViewOutcome where
  | stepView (st : Step) (sec : GuideSection)
  | completedAll (total_steps : Nat)
deriving DecidableEq, Repr

/-- Exceptions the disclosure service can raise (besides not-found lookups,
which the embedding factors out by taking the loaded pair directly). -/
inductive DiscError where
  | invalidStepIdentifier
  | cannotGoBack
deriving DecidableEq, Repr

/-- `StepDisclosureService.get_current_step_only`, given the loaded guide data
and session.  Resolves the current step; if it is blocked and has alternatives,
redirects the session pointer to the first alternative (a committed side
effect) and re-resolves; a step that no longer resolves yields the completed
response.  The (possibly updated) session is returned alongside the outcome. -/
def get_current_step_only (g : GuideData) (s : Session) (now : Nat) :
    Session × Except DiscError ViewOutcome :=
  if !validate_step_identifier s.current_step_identifier then
    (s, .error .invalidStepIdentifier)
  else
    let current := s.current_step_identifier
    let found := find_step_by_identifier g current
    let redirected : Option (Step × GuideSection) × Session :=
      match found with
      | some (st, sec) =>
        if st.status == some "blocked" then
          match find_alternatives_for_step g current with
          | [] => (some (st, sec), s)
          | a :: _ =>
            let first_alt_id := a.step_identifier.getD ""
            (find_step_by_identifier g first_alt_id,
             { s with current_step_identifier := first_alt_id, updated_at := now })
        else (some (st, sec), s)
      | none => (none, s)
    match redirected with
    | (some (st, sec), s2) => (s2, .ok (.stepView st sec))
    | (none, s2) => (s2, .ok (.completedAll (all_step_identifiers g false).length))

/-- One entry of the completion-event history the spec attributes to
`advance`; the code's `_log_step_completion` would append these. -/
structure CompletionEvent where
  step_identifier : String
  completion_notes : Option String
  timestamp : Nat
deriving DecidableEq, Repr

/-- `StepDisclosureService._log_step_completion`: the body is `pass`
("could be implemented later"), so the event list is returned unchanged. -/
def log_step_completion (events : List CompletionEvent) (_step_identifier : String)
    (_completion_notes : Option String) : List CompletionEvent :=
  events

/-- What `advance_to_next_step` returns: the end-of-guide completion response
or the refreshed current-step view. -/
inductive AdvanceOutcome where
  | completedGuide
  | nextView (v : ViewOutcome)
deriving DecidableEq, Repr

/-- `StepDisclosureService.advance_to_next_step`: find the next identifier in
the active (non-blocked) sequence; if none, mark the session completed;
otherwise move the pointer, invoke the completion logger and return the
refreshed view. -/
def advance_to_next_step (g : GuideData) (s : Session) (completion_notes : Option String)
    (events : List CompletionEvent) (now : Nat) :
    (Session × List CompletionEvent) × Except DiscError AdvanceOutcome :=
  let current := s.current_step_identifier
  let all_ids := all_step_identifiers g false
  match Sorting.get_next_identifier current all_ids with
  | none =>
    (({ s with status := .completed, completed_at := some now, updated_at := now }, events),
     .ok .completedGuide)
  | some next =>
    let s1 := { s with current_step_identifier := next, updated_at := now }
    let events1 := log_step_completion events current completion_notes
    let (s2, r) := get_current_step_only g s1 now
    ((s2, events1), r.map .nextView)

/-- `StepDisclosureService.go_back_to_previous_step`: previous identifier in
the full (blocked included) sequence; `ValueError` at the first step;
otherwise move the pointer and return the refreshed view. -/
def go_back_to_previous_step (g : GuideData) (s : Session) (now : Nat) :
    Session × Except DiscError ViewOutcome :=
  let all_ids := all_step_identifiers g true
  match Sorting.get_previous_identifier s.current_step_identifier all_ids with
  | none => (s, .error .cannotGoBack)
  | some prev =>
    get_current_step_only g { s with current_step_identifier := prev, updated_at := now } now

end Disclosure

namespace Sessions

open Model

/-- `SessionService._is_valid_status_transition`: the legal-transition table. -/
def is_valid_status_transition : SessionStatus → SessionStatus → Bool
  | .active, .paused => true
  | .active, .completed => true
  | .active, .failed => true
  | .paused, .active => true
  | .paused, .failed => true
  | .failed, .active => true
  | _, _ => false

/-- `InvalidSessionStateError` raised by `update_session`. -/
inductive SessionError where
  | invalidSessionState
deriving DecidableEq, Repr

/-- `SessionService.update_session` (status handling): validate the requested
transition, then update status, `updated_at`, and `completed_at` when
completing.  A request without a status fails the `in`-check against the
transition table (`None` is never a member) and raises. -/
def update_session (s : Session) (request_status : Option SessionStatus) (now : Nat) :
    Session × Except SessionError Session :=
  match request_status with
  | none => (s, .error .invalidSessionState)
  | some t =>
    if !is_valid_status_transition s.status t then (s, .error .invalidSessionState)
    else
      let s' : Session :=
        { s with status := t, updated_at := now,
                 completed_at := if t == .completed then some now else s.completed_at }
      (s', .ok s')

end Sessions

namespace Adaptation

open Model

/-- One candidate alternative step as returned by the LLM collaborator
(content only, no identifier); keys read with `.get` defaults are `Option`s. -/
structure AltContent where
  title : String := ""
  description : String := ""
  completion_criteria : String := ""
  assistance_hints : Option (List String) := none
  estimated_duration_minutes : Option Nat := none
  requires_desktop_monitoring : Option Bool := none
  visual_markers : Option (List String) := none
  prerequisites : Option (List String) := none
deriving DecidableEq, Repr

/-- The sub-index letters `["a", "b", "c", "d", "e", "f"]` of
`merge_alternatives_into_guide`. -/
def letters : List String := ["a", "b", "c", "d", "e", "f"]

/-- The alternative-step dictionary built inside
`merge_alternatives_into_guide` for one candidate. -/
def mkAlternativeStep (blocked : Step) (current_step_identifier letter : String)
    (alt : AltContent) : Step :=
  { step_identifier := some (current_step_identifier ++ letter),
    step_index := blocked.step_index,
    title := alt.title,
    description := alt.description,
    completion_criteria := alt.completion_criteria,
    assistance_hints := alt.assistance_hints.getD [],
    estimated_duration_minutes := some (alt.estimated_duration_minutes.getD 5),
    requires_desktop_monitoring := some (alt.requires_desktop_monitoring.getD false),
    visual_markers := alt.visual_markers.getD [],
    prerequisites := alt.prerequisites.getD [],
    status := some "alternative",
    blocked_reason := none,
    show_as := none,
    replaces_step_identifier := some current_step_identifier,
    completed := some false,
    needs_assistance := some false }

/-- Split a section's step list at the first step matching the identifier
(the `for i, step in enumerate(steps)` scan with `break`). -/
def splitAtFirstMatch : List Step → String → Option (List Step × Step × List Step)
  | [], _ => none
  | st :: rest, ident =>
    if stepMatches st ident then some ([], st, rest)
    else (splitAtFirstMatch rest ident).map (fun x => (st :: x.1, x.2.1, x.2.2))

/-- The per-section body of `merge_alternatives_into_guide`: on the first
matching step, mark it blocked, build at most six alternatives `base ++
letter` (excess candidates are discarded by `idx < len(letters)`), insert them
right after the blocked step, and extend the accumulated identifier list.
Sections without a match are unchanged.  The identifier accumulator is shared
across sections, as the closure variable is in the source. -/
def processSectionForMerge (current_step_identifier blocked_reason : String)
    (alternative_steps : List AltContent) (acc_ids : List String)
    (sec : GuideSection) : GuideSection × List String :=
  match splitAtFirstMatch sec.steps current_step_identifier with
  | none => (sec, acc_ids)
  | some (before, st, after) =>
    let blockedStep :=
      { st with status := some "blocked", blocked_reason := some blocked_reason,
                show_as := some "crossed_out" }
    let pairs := letters.zip alternative_steps
    let new_ids := pairs.map (fun p => current_step_identifier ++ p.1)
    let new_steps := pairs.map (fun p => mkAlternativeStep st current_step_identifier p.1 p.2)
    ({ sec with steps := before ++ blockedStep :: (new_steps ++ after) },
     acc_ids ++ new_ids)

/-- `GuideAdaptationService.merge_alternatives_into_guide` on the deep copy:
returns the updated guide data and the list of created alternative
identifiers. -/
def merge_alternatives_into_guide (guide_data : GuideData)
    (current_step_identifier blocked_reason : String)
    (alternative_steps : List AltContent) : GuideData × List String :=
  let folded := guide_data.sections.foldl
    (fun (acc : List GuideSection × List String) sec =>
      let r := processSectionForMerge current_step_identifier blocked_reason
        alternative_steps acc.2 sec
      (acc.1 ++ [r.1], r.2))
    ([], [])
  ({ guide_data with sections := folded.1 }, folded.2)

/-- `GuideAdaptationService._find_step_by_identifier`: first matching step in
document order. -/
def find_step (g : GuideData) (step_identifier : String) : Option Step :=
  (allSteps g).find? (fun st => stepMatches st step_identifier)

/-- The loaded (guide, session) pair `handle_impossible_step` works on. -/
structure AdaptState where
  guide : Guide
  session : Session
deriving DecidableEq, Repr

/-- How `handle_impossible_step` fails: the LLM call raising or timing out, or
the `alternative_identifiers[0]` IndexError when the merge created none. -/
inductive AdaptError where
  | generatorFailed
  | emptyAlternativesIndexError
deriving DecidableEq, Repr

/-- The response dictionary of a successful `handle_impossible_step`. -/
structure AdaptResponse where
  blocked_step : Option Step
  alternative_steps : List (Option Step)
  current_step : Option Step
deriving DecidableEq, Repr

/-- `GuideAdaptationService.handle_impossible_step`, with the external LLM
call's outcome passed in as `generated` (`.error` models the collaborator
raising or timing out).  Mirrors the commit order of the source: the guide
update (blocked step, history entry, `last_adapted_at`) is committed before
the first alternative identifier is read, so the `IndexError` on an empty
alternative list leaves the guide already mutated while the session is not. -/
def handle_impossible_step (st : AdaptState) (problem_description reason : String)
    (generated : Except Unit (List AltContent × String)) (now : Nat) :
    AdaptState × Except AdaptError AdaptResponse :=
  match generated with
  | .error _ => (st, .error .generatorFailed)
  | .ok (alternative_steps, provider) =>
    let merged := merge_alternatives_into_guide st.guide.guide_data
      st.session.current_step_identifier problem_description alternative_steps
    let updated_guide_data := merged.1
    let alternative_identifiers := merged.2
    let info : AdaptationInfo :=
      { timestamp := now,
        blocked_step_identifier := st.session.current_step_identifier,
        blocked_reason := problem_description,
        reason_category := reason,
        alternatives_added := alternative_identifiers,
        llm_provider := provider }
    let st1 : AdaptState :=
      { st with guide :=
        { guide_data := updated_guide_data,
          adaptation_history := st.guide.adaptation_history ++ [info],
          last_adapted_at := some now } }
    match alternative_identifiers with
    | [] => (st1, .error .emptyAlternativesIndexError)
    | first_alternative_id :: _ =>
      let st2 : AdaptState :=
        { st1 with session :=
          { st.session with current_step_identifier := first_alternative_id,
                            updated_at := now } }
      (st2, .ok
        { blocked_step := find_step updated_guide_data st.session.current_step_identifier,
          alternative_steps := alternative_identifiers.map (find_step updated_guide_data),
          current_step := find_step updated_guide_data first_alternative_id })

end Adaptation

namespace Model

/-- The identifiers of all steps in document order (with the index fallback),
the identifier universe of one guide structure. -/
def idsOf (g : GuideData) : List String :=
  (allSteps g).map stepIdOf

/-- Well-formedness of a guide structure, matching the data-model invariants
of the spec: every step carries an explicit `step_identifier`, identifiers are
unique, and the `str(step_index)` fallback never aliases one step to another
step's identifier (any step matching an identifier present in the guide
matches through its own `step_identifier` field). -/
def wellFormedGuide (g : GuideData) : Prop :=
  (∀ st ∈ allSteps g, st.step_identifier.isSome = true) ∧
  (idsOf g).Nodup ∧
  (∀ i ∈ idsOf g, ∀ st ∈ allSteps g, stepMatches st i = true → st.step_identifier = some i)

instance (g : GuideData) : Decidable (wellFormedGuide g) := by
  unfold wellFormedGuide
  infer_instance

/-- Every blocked step of the guide has at least one alternative step, the
condition under which the disclosure engine's blocked-step redirect can
succeed. -/
def blockedHaveAlternatives (g : GuideData) : Prop :=
  ∀ st ∈ allSteps g, st.status = some "blocked" →
    Disclosure.find_alternatives_for_step g (stepIdOf st) ≠ []

instance (g : GuideData) : Decidable (blockedHaveAlternatives g) := by
  unfold blockedHaveAlternatives
  infer_instance

/-- The resting-pointer condition of the session invariant: the identifier
resolves to a step of the guide whose status is not `"blocked"`. -/
def resolvesUnblocked (g : GuideData) (ident : String) : Bool :=
  match Disclosure.find_step_by_identifier g ident with
  | some (st, _) => st.status != some "blocked"
  | none => false

/-- The session invariant: while the session is Active, its current step
identifier resolves to an existing, non-blocked step. -/
def pointerOk (g : GuideData) (s : Session) : Prop :=
  s.status = .active → resolvesUnblocked g s.current_step_identifier = true

instance (g : GuideData) (s : Session) : Decidable (pointerOk g s) := by
  unfold pointerOk
  infer_instance

/-- The non-blocked steps of the guide in document order. -/
def docActiveSteps (g : GuideData) : List Step :=
  (allSteps g).filter (fun st => st.status != some "blocked")

/-- Spec-side formula for the estimated remaining minutes: the sum of the
durations of exactly the non-blocked steps whose identifiers come strictly
after the current identifier in the comparator order. -/
def remainingMinutesSpec (g : GuideData) (current : String) : Nat :=
  ((docActiveSteps g).filter
      (fun st => Sorting.is_identifier_before current (stepIdOf st))).foldl
    (fun acc st => acc + st.estimated_duration_minutes.getD 0) 0

end Model

instance {e a : Type} [DecidableEq e] [DecidableEq a] : DecidableEq (Except e a) := fun x y =>
  match x, y with
  | .ok v, .ok w =>
    if h : v = w then isTrue (congrArg Except.ok h)
    else isFalse (fun hx => h (Except.ok.inj hx))
  | .error v, .error w =>
    if h : v = w then isTrue (congrArg Except.error h)
    else isFalse (fun hx => h (Except.error.inj hx))
  | .ok _, .error _ => isFalse (fun hx => Except.noConfusion hx)
  | .error _, .ok _ => isFalse (fun hx => Except.noConfusion hx)

namespace Fixtures

open Model

/-- A plain active step used by the concrete witness states. -/
def mkStep (i : String) (idx : Nat) (dur : Nat) : Step :=
  { step_identifier := some i, step_index := some idx, title := "t",
    estimated_duration_minutes := some dur }

/-- A three-step guide with identifiers `"0"`, `"1"`, `"2"`. -/
def guide3 : GuideData :=
  { title := "G", description := "",
    sections := [
      { section_id := "s1", section_title := "S", section_description := "",
        section_order := 1, steps := [mkStep "0" 0 3, mkStep "1" 1 5, mkStep "2" 2 7] }] }

/-- The loaded adaptation pair: `guide3` with the session resting on `"1"`. -/
def adaptState3 : Adaptation.AdaptState :=
  { guide := { guide_data := guide3 }, session := { current_step_identifier := "1" } }

/-- Two generated alternative contents. -/
def altsTwo : List Adaptation.AltContent :=
  [{ title := "A1" }, { title := "A2" }]

/-- The blocked step `"1"` of `guideBlocked`. -/
def blockedStep1 : Step :=
  { mkStep "1" 1 5 with
      status := some "blocked", blocked_reason := some "why", show_as := some "crossed_out" }

/-- The alternative step `"1a"` of `guideBlocked`, replacing `"1"`. -/
def altStep1a : Step :=
  { mkStep "1a" 1 4 with
      status := some "alternative", replaces_step_identifier := some "1" }

/-- A guide after one adaptation: `"1"` blocked with the alternative `"1a"`. -/
def guideBlocked : GuideData :=
  { title := "G", description := "",
    sections := [
      { section_id := "s1", section_title := "S", section_description := "",
        section_order := 1,
        steps := [mkStep "0" 0 3, blockedStep1, altStep1a, mkStep "2" 2 7] }] }

/-- The state left behind by reporting step `"1"` blocked when the generation
succeeds with an empty alternative list: the guide commit has happened, the
session update has not. -/
def emptyGenState : Adaptation.AdaptState :=
  (Adaptation.handle_impossible_step adaptState3 "p" "r" (.ok ([], "prov")) 9).1

end Fixtures

/-! ## Order-theoretic facts about the identifier comparator -/

namespace Sorting

theorem char_toNat_inj {a b : Char} (h : a.toNat = b.toNat) : a = b := by
  have h2 : a.val = b.val := by
    unfold Char.toNat at h
    exact UInt32.toNat.inj h
  exact Char.ext h2

theorem pyStringLtChars_irrefl (l : List Char) : pyStringLtChars l l = false := by
  induction l with
  | nil => rfl
  | cons c cs ih => simp [pyStringLtChars, ih]

theorem pyStringLtChars_trans {a b c : List Char} (h1 : pyStringLtChars a b = true)
    (h2 : pyStringLtChars b c = true) : pyStringLtChars a c = true := by
  induction a generalizing b c with
  | nil =>
    cases c with
    | cons z zs => rfl
    | nil =>
      cases b with
      | nil => simp [pyStringLtChars] at h1
      | cons y ys => simp [pyStringLtChars] at h2
  | cons x xs ih =>
    cases b with
    | nil => simp [pyStringLtChars] at h1
    | cons y ys =>
      cases c with
      | nil => simp [pyStringLtChars] at h2
      | cons z zs =>
        simp only [pyStringLtChars] at h1 h2 ⊢
        split_ifs at h1 h2 ⊢ <;>
          first
          | rfl
          | omega
          | exact ih h1 h2

theorem pyStringLtChars_asymm {a b : List Char} (h : pyStringLtChars a b = true) :
    pyStringLtChars b a = false := by
  cases hba : pyStringLtChars b a with
  | false => rfl
  | true =>
    have := pyStringLtChars_trans h hba
    rw [pyStringLtChars_irrefl] at this
    exact absurd this (by simp)

theorem pyStringLtChars_connex {a b : List Char} (h1 : pyStringLtChars a b = false)
    (h2 : pyStringLtChars b a = false) : a = b := by
  induction a generalizing b with
  | nil =>
    cases b with
    | nil => rfl
    | cons y ys => simp [pyStringLtChars] at h1
  | cons x xs ih =>
    cases b with
    | nil => simp [pyStringLtChars] at h2
    | cons y ys =>
      simp only [pyStringLtChars] at h1 h2
      split_ifs at h1 h2 with hxy hyx
      have hx : x = y := char_toNat_inj (by omega)
      subst hx
      rw [ih h1 h2]

theorem pyStringLt_irrefl (s : String) : pyStringLt s s = false :=
  pyStringLtChars_irrefl s.toList

theorem pyStringLt_trans {a b c : String} (h1 : pyStringLt a b = true)
    (h2 : pyStringLt b c = true) : pyStringLt a c = true :=
  pyStringLtChars_trans h1 h2

theorem pyStringLt_connex {a b : String} (h1 : pyStringLt a b = false)
    (h2 : pyStringLt b a = false) : a = b :=
  String.ext (pyStringLtChars_connex h1 h2)

theorem keyLt_irrefl (k : Nat × String) : keyLt k k = false := by
  simp [keyLt, pyStringLt_irrefl]

theorem keyLt_trans {k1 k2 k3 : Nat × String} (h1 : keyLt k1 k2 = true)
    (h2 : keyLt k2 k3 = true) : keyLt k1 k3 = true := by
  simp only [keyLt, Bool.or_eq_true, Bool.and_eq_true, beq_iff_eq,
    decide_eq_true_eq] at h1 h2 ⊢
  rcases h1 with h1 | ⟨e1, s1⟩ <;> rcases h2 with h2 | ⟨e2, s2⟩
  · left; omega
  · left; omega
  · left; omega
  · right; exact ⟨by omega, pyStringLt_trans s1 s2⟩

theorem keyLt_asymm {k1 k2 : Nat × String} (h : keyLt k1 k2 = true) :
    keyLt k2 k1 = false := by
  cases hb : keyLt k2 k1 with
  | false => rfl
  | true =>
    have := keyLt_trans h hb
    rw [keyLt_irrefl] at this
    exact absurd this (by simp)

theorem keyLt_connex {k1 k2 : Nat × String} (h1 : keyLt k1 k2 = false)
    (h2 : keyLt k2 k1 = false) : k1 = k2 := by
  obtain ⟨n1, s1⟩ := k1
  obtain ⟨n2, s2⟩ := k2
  simp only [keyLt, Bool.or_eq_false_iff, Bool.and_eq_false_iff, beq_eq_false_iff_ne,
    decide_eq_false_iff_not] at h1 h2
  obtain ⟨hn1, hr1⟩ := h1
  obtain ⟨hn2, hr2⟩ := h2
  have hn : n1 = n2 := by omega
  subst hn
  have hs : s1 = s2 := by
    rcases hr1 with h | h
    · exact absurd rfl h
    · rcases hr2 with h' | h'
      · exact absurd rfl h'
      · exact pyStringLt_connex h h'
  rw [hs]

theorem keyLe_total : ∀ a b : String, keyLe a b ∨ keyLe b a := by
  intro a b
  unfold keyLe
  cases h1 : keyLt (natural_sort_key b) (natural_sort_key a) with
  | false => exact Or.inl rfl
  | true => exact Or.inr (keyLt_asymm h1)

theorem keyLe_trans : ∀ a b c : String, keyLe a b → keyLe b c → keyLe a c := by
  intro a b c h1 h2
  unfold keyLe at h1 h2 ⊢
  cases hca : keyLt (natural_sort_key c) (natural_sort_key a) with
  | false => rfl
  | true =>
    exfalso
    cases hbc : keyLt (natural_sort_key b) (natural_sort_key c) with
    | true =>
      have := keyLt_trans hbc hca
      rw [h1] at this
      exact absurd this (by simp)
    | false =>
      have heq := keyLt_connex h2 hbc
      rw [heq, h1] at hca
      exact absurd hca (by simp)

instance : IsTotal String keyLe := ⟨keyLe_total⟩

instance : IsTrans String keyLe := ⟨keyLe_trans⟩

theorem sort_step_identifiers_perm (l : List String) :
    (sort_step_identifiers l).Perm l :=
  List.perm_insertionSort keyLe l

theorem sort_step_identifiers_sorted (l : List String) :
    (sort_step_identifiers l).Pairwise keyLe :=
  List.sorted_insertionSort keyLe l

theorem findIdx?_beq_none {a : String} {l : List String} (h : a ∉ l) (i : Nat) :
    List.findIdx? (fun x => x == a) l i = none := by
  induction l generalizing i with
  | nil => rfl
  | cons x xs ih =>
    have hx : (x == a) = false := by
      simp only [beq_eq_false_iff_ne, ne_eq]
      intro e
      exact h (by rw [e]; exact List.mem_cons_self _ _)
    rw [List.findIdx?_cons, if_neg (by simp [hx])]
    exact ih (fun hm => h (List.mem_cons_of_mem _ hm)) (i + 1)

theorem findIdx?_beq_some {a : String} {l : List String} {i j : Nat}
    (h : List.findIdx? (fun x => x == a) l i = some j) :
    i ≤ j ∧ l[j - i]? = some a := by
  induction l generalizing i with
  | nil => simp at h
  | cons x xs ih =>
    rw [List.findIdx?_cons] at h
    by_cases hx : (x == a) = true
    · rw [if_pos hx] at h
      cases h
      refine ⟨Nat.le_refl _, ?_⟩
      simp only [Nat.sub_self, List.getElem?_cons_zero, Option.some.injEq]
      exact beq_iff_eq.mp hx
    · rw [if_neg hx] at h
      obtain ⟨h1, h2⟩ := ih h
      refine ⟨by omega, ?_⟩
      have hji : j - i = (j - (i + 1)) + 1 := by omega
      rw [hji, List.getElem?_cons_succ]
      exact h2

theorem findIdx?_beq_of_getElem? {a : String} {l : List String} (hnd : l.Nodup)
    {k : Nat} (h : l[k]? = some a) (i : Nat) :
    List.findIdx? (fun x => x == a) l i = some (i + k) := by
  induction l generalizing i k with
  | nil => simp at h
  | cons x xs ih =>
    obtain ⟨hx, hxs⟩ := List.nodup_cons.mp hnd
    cases k with
    | zero =>
      simp only [List.getElem?_cons_zero, Option.some.injEq] at h
      subst h
      rw [List.findIdx?_cons, if_pos (by simp)]
      simp
    | succ j =>
      simp only [List.getElem?_cons_succ] at h
      have hmem : a ∈ xs := List.getElem?_mem h
      have hne : (x == a) = false := by
        simp only [beq_eq_false_iff_ne, ne_eq]
        intro e
        subst e
        exact hx hmem
      rw [List.findIdx?_cons, if_neg (by simp [hne])]
      have := ih hxs h (i + 1)
      rw [this]
      congr 1
      omega

/-- The letter suffix captured by the regex is empty or a single lowercase
letter. -/
theorem parse_suffix_shape {s : String} {n : Nat} {l : String}
    (h : parseIdentifier s = some (n, l)) :
    l = "" ∨ ∃ c, isLowerLetter c = true ∧ l = String.mk [c] := by
  simp only [parseIdentifier] at h
  by_cases hds : (s.toList.takeWhile Char.isDigit).isEmpty = true
  · rw [if_pos hds] at h
    exact absurd h (by simp)
  · rw [if_neg hds] at h
    cases hrest : s.toList.dropWhile Char.isDigit with
    | nil =>
      simp only [hrest, Option.some.injEq, Prod.mk.injEq] at h
      exact Or.inl h.2.symm
    | cons c cs =>
      cases cs with
      | nil =>
        simp only [hrest] at h
        by_cases hc : isLowerLetter c = true
        · rw [if_pos hc] at h
          simp only [Option.some.injEq, Prod.mk.injEq] at h
          exact Or.inr ⟨c, hc, h.2.symm⟩
        · rw [if_neg hc] at h
          exact absurd h (by simp)
      | cons d ds =>
        simp only [hrest] at h
        exact absurd h (by simp)

theorem natural_sort_key_valid {s : String} {k : Nat × String}
    (h : parseIdentifier s = some k) : natural_sort_key s = k := by
  rw [natural_sort_key, h]
  rfl

theorem natural_sort_key_invalid {s : String} (h : parseIdentifier s = none) :
    natural_sort_key s = (999999, s) := by
  rw [natural_sort_key, h]
  rfl

/-- On regex-captured letter suffixes, the Python string order agrees with the
spec's "absent letter first, then alphabetical" suffix order. -/
theorem suffix_lt_eq {l1 l2 : String}
    (h1 : l1 = "" ∨ ∃ c, isLowerLetter c = true ∧ l1 = String.mk [c])
    (h2 : l2 = "" ∨ ∃ c, isLowerLetter c = true ∧ l2 = String.mk [c]) :
    pyStringLt l1 l2 = letterSuffixLt l1 l2 := by
  rcases h1 with h1 | ⟨c, _, h1⟩ <;> rcases h2 with h2 | ⟨d, _, h2⟩ <;> subst h1 <;> subst h2
  · decide
  · simp [pyStringLt, pyStringLtChars, letterSuffixLt, String.ext_iff]
  · simp [pyStringLt, pyStringLtChars, letterSuffixLt, String.ext_iff]
  · have hne1 : (String.mk [c] == "") = false := by
      simp [String.ext_iff]
    have hne2 : (String.mk [d] == "") = false := by
      simp [String.ext_iff]
    simp only [letterSuffixLt, hne1, hne2, bne, Bool.not_false, Bool.false_and,
      Bool.true_and, Bool.false_or]

theorem indexOf?_eq_none {l : List String} {a : String} (h : a ∉ l) :
    List.indexOf? a l = none :=
  findIdx?_beq_none h 0

theorem getElem?_of_indexOf? {l : List String} {a : String} {i : Nat}
    (h : List.indexOf? a l = some i) : l[i]? = some a := by
  have h' : List.findIdx? (fun x => x == a) l 0 = some i := h
  have := (findIdx?_beq_some h').2
  simpa using this

theorem indexOf?_of_getElem? {l : List String} (hnd : l.Nodup) {i : Nat} {a : String}
    (h : l[i]? = some a) : List.indexOf? a l = some i := by
  have := findIdx?_beq_of_getElem? hnd h 0
  simpa using this

end Sorting

/-! ## The adaptation service's private comparator on valid identifiers -/

namespace Adaptation

theorem lower_not_digit {c : Char} (h : isLowerLetter c = true) : c.isDigit = false := by
  simp only [isLowerLetter, Bool.and_eq_true, decide_eq_true_eq] at h
  obtain ⟨h1, h2⟩ := h
  have hnat : (97 : Nat) ≤ c.val.toNat := h1
  simp only [Char.isDigit, Bool.and_eq_false_iff, decide_eq_false_iff_not]
  right
  intro hle
  have hle' : c.val.toNat ≤ 57 := hle
  omega

theorem toLower_lower {c : Char} (h : isLowerLetter c = true) : c.toLower = c := by
  simp only [isLowerLetter, Bool.and_eq_true, decide_eq_true_eq] at h
  obtain ⟨h1, h2⟩ := h
  have hnat : (97 : Nat) ≤ c.val.toNat := h1
  simp only [Char.toLower]
  rw [if_neg]
  intro hx
  have hle' : c.val.toNat ≤ 90 := hx.2
  omega

/-- Destructor for a successful regex match: the string is a non-empty digit
run optionally followed by one lowercase letter, and the captures are the two
parts. -/
theorem parse_elim {s : String} {n : Nat} {l : String}
    (h : Sorting.parseIdentifier s = some (n, l)) :
    ∃ ds, ds ≠ [] ∧ (∀ c ∈ ds, c.isDigit = true) ∧ n = natOfDigits ds ∧
      ((s.toList = ds ∧ l = "") ∨
        (∃ c, isLowerLetter c = true ∧ s.toList = ds ++ [c] ∧ l = String.mk [c])) := by
  simp only [Sorting.parseIdentifier] at h
  by_cases hds : (s.toList.takeWhile Char.isDigit).isEmpty = true
  · rw [if_pos hds] at h
    exact absurd h (by simp)
  · rw [if_neg hds] at h
    refine ⟨s.toList.takeWhile Char.isDigit, ?_, ?_, ?_⟩
    · intro he
      rw [he] at hds
      exact hds rfl
    · intro c hc
      exact List.mem_takeWhile_imp hc
    · cases hrest : s.toList.dropWhile Char.isDigit with
      | nil =>
        simp only [hrest, Option.some.injEq, Prod.mk.injEq] at h
        refine ⟨h.1.symm, Or.inl ⟨?_, h.2.symm⟩⟩
        conv_lhs => rw [← List.takeWhile_append_dropWhile (p := Char.isDigit) (l := s.toList)]
        rw [hrest, List.append_nil]
      | cons c cs =>
        cases cs with
        | nil =>
          simp only [hrest] at h
          by_cases hc : isLowerLetter c = true
          · rw [if_pos hc] at h
            simp only [Option.some.injEq, Prod.mk.injEq] at h
            refine ⟨h.1.symm, Or.inr ⟨c, hc, ?_, h.2.symm⟩⟩
            conv_lhs => rw [← List.takeWhile_append_dropWhile (p := Char.isDigit) (l := s.toList)]
            rw [hrest]
          · rw [if_neg hc] at h
            exact absurd h (by simp)
        | cons d ds =>
          simp only [hrest] at h
          exact absurd h (by simp)

theorem split_digits_only {ds : List Char} (hne : ds ≠ [])
    (hd : ∀ c ∈ ds, c.isDigit = true) :
    splitDigitGroups ds = ["", String.mk ds, ""] := by
  induction ds with
  | nil => exact absurd rfl hne
  | cons d ds ih =>
    have hdd : d.isDigit = true := hd d (List.mem_cons_self _ _)
    cases ds with
    | nil => simp [splitDigitGroups, hdd]
    | cons d2 ds2 =>
      have ih2 := ih (by simp) (fun c hc => hd c (List.mem_cons_of_mem _ hc))
      rw [splitDigitGroups.eq_def]
      simp only [ih2, hdd]
      rfl

theorem split_digits_letter {ds : List Char} {c : Char} (hne : ds ≠ [])
    (hd : ∀ x ∈ ds, x.isDigit = true) (hc : c.isDigit = false) :
    splitDigitGroups (ds ++ [c]) = ["", String.mk ds, String.mk [c]] := by
  induction ds with
  | nil => exact absurd rfl hne
  | cons d ds ih =>
    have hdd : d.isDigit = true := hd d (List.mem_cons_self _ _)
    cases ds with
    | nil => simp [splitDigitGroups, hdd, hc, String.ext_iff]
    | cons d2 ds2 =>
      have ih2 := ih (by simp) (fun x hx => hd x (List.mem_cons_of_mem _ hx))
      simp only [List.cons_append] at ih2 ⊢
      rw [splitDigitGroups.eq_def]
      simp only [ih2, hdd]
      rfl

theorem pyChunk_empty : pyChunk "" = .pyStr "" := by decide

theorem pyChunk_digits {ds : List Char} (hne : ds ≠ [])
    (hd : ∀ c ∈ ds, c.isDigit = true) :
    pyChunk (String.mk ds) = .pyInt (natOfDigits ds) := by
  have hl : (String.mk ds).toList = ds := rfl
  simp only [pyChunk, hl]
  rw [if_pos]
  rw [Bool.and_eq_true]
  constructor
  · simpa using hne
  · exact List.all_eq_true.mpr hd

theorem pyChunk_letter {c : Char} (hc : isLowerLetter c = true) :
    pyChunk (String.mk [c]) = .pyStr (String.mk [c]) := by
  have hnd := lower_not_digit hc
  simp [pyChunk, hnd, toLower_lower hc]

/-- On a valid identifier the adaptation service's key is
`["", int(digits), letter]`. -/
theorem adaptKey_valid {s : String} {n : Nat} {l : String}
    (h : Sorting.parseIdentifier s = some (n, l)) :
    adaptKey s = [.pyStr "", .pyInt n, .pyStr l] := by
  obtain ⟨ds, hne, hd, hn, hshape⟩ := parse_elim h
  rcases hshape with ⟨hs, hl⟩ | ⟨c, hc, hs, hl⟩
  · rw [adaptKey, hs, split_digits_only hne hd]
    simp only [List.map_cons, List.map_nil, pyChunk_empty, pyChunk_digits hne hd]
    rw [hn, hl]
  · rw [adaptKey, hs, split_digits_letter hne hd (lower_not_digit hc)]
    simp only [List.map_cons, List.map_nil, pyChunk_empty, pyChunk_digits hne hd,
      pyChunk_letter hc]
    rw [hn, hl]

end Adaptation

/-! ## The remaining-time walk -/

namespace Disclosure

open Model

theorem ibefore_irrefl (a : String) : Sorting.is_identifier_before a a = false :=
  Sorting.keyLt_irrefl _

theorem ibefore_asymm {a b : String} (h : Sorting.is_identifier_before a b = true) :
    Sorting.is_identifier_before b a = false :=
  Sorting.keyLt_asymm h

theorem foldl_dur_shift :
    ∀ (l : List Step) (a : Nat),
      l.foldl (fun x st => x + st.estimated_duration_minutes.getD 0) a =
        a + l.foldl (fun x st => x + st.estimated_duration_minutes.getD 0) 0 := by
  intro l
  induction l with
  | nil => intro a; simp
  | cons st l ih =>
    intro a
    simp only [List.foldl_cons]
    rw [ih (a + _), ih (0 + _)]
    omega

/-- `crtStep` case equations. -/
theorem crtStep_blocked {current : String} {acc : Nat × Bool} {st : Step}
    (hb : st.status = some "blocked") : crtStep current acc st = acc := by
  simp [crtStep, hb]

theorem crtStep_current {current : String} {acc : Nat × Bool} {st : Step}
    (hb : st.status ≠ some "blocked") (hc : stepIdOf st = current) :
    crtStep current acc st = (acc.1, true) := by
  simp [crtStep, hb, hc]

theorem crtStep_skip {current : String} {a : Nat} {st : Step}
    (hb : st.status ≠ some "blocked") (hc : stepIdOf st ≠ current) :
    crtStep current (a, false) st = (a, false) := by
  simp [crtStep, hb, hc]

theorem crtStep_add {current : String} {a : Nat} {st : Step}
    (hb : st.status ≠ some "blocked") (hc : stepIdOf st ≠ current) :
    crtStep current (a, true) st = (a + st.estimated_duration_minutes.getD 0, true) := by
  simp [crtStep, hb, hc]

/-- The remaining-time fold after the current step has been seen sums the
durations of all remaining non-blocked steps (none of which carries the
current identifier). -/
theorem crt_fold_found {current : String} :
    ∀ (L : List Step) (acc : Nat),
      (∀ st ∈ L, st.status ≠ some "blocked" → stepIdOf st ≠ current) →
      (L.foldl (crtStep current) (acc, true)).1 =
      acc + ((L.filter (fun st => st.status != some "blocked")).foldl
        (fun x st => x + st.estimated_duration_minutes.getD 0) 0) := by
  intro L
  induction L with
  | nil => intro acc _; simp
  | cons st L ih =>
    intro acc hno
    by_cases hb : st.status = some "blocked"
    · rw [List.foldl_cons, crtStep_blocked hb,
        List.filter_cons_of_neg (by simp [hb]),
        ih acc (fun x hx => hno x (List.mem_cons_of_mem _ hx))]
    · have hc : stepIdOf st ≠ current := hno st (List.mem_cons_self _ _) hb
      rw [List.foldl_cons, crtStep_add hb hc,
        List.filter_cons_of_pos (by simp [hb]),
        ih _ (fun x hx => hno x (List.mem_cons_of_mem _ hx)),
        List.foldl_cons, foldl_dur_shift _ (0 + st.estimated_duration_minutes.getD 0)]
      omega

/-- The remaining-time fold in search mode: with the non-blocked identifiers
strictly sorted in document order and the current identifier among them, the
result is the sum over the non-blocked steps strictly after the current
identifier in comparator order. -/
theorem crt_fold_search {current : String} :
    ∀ (L : List Step) (acc : Nat),
      List.Pairwise (fun a b => Sorting.is_identifier_before a b = true)
        ((L.filter (fun st => st.status != some "blocked")).map stepIdOf) →
      current ∈ (L.filter (fun st => st.status != some "blocked")).map stepIdOf →
      (L.foldl (crtStep current) (acc, false)).1 =
      acc + (((L.filter (fun st => st.status != some "blocked")).filter
          (fun st => Sorting.is_identifier_before current (stepIdOf st))).foldl
        (fun x st => x + st.estimated_duration_minutes.getD 0) 0) := by
  intro L
  induction L with
  | nil => intro acc _ hm; simp at hm
  | cons st L ih =>
    intro acc hp hm
    by_cases hb : st.status = some "blocked"
    · rw [List.filter_cons_of_neg (by simp [hb])] at hp hm ⊢
      rw [List.foldl_cons, crtStep_blocked hb]
      exact ih acc hp hm
    · rw [List.filter_cons_of_pos (by simp [hb])] at hp hm
      simp only [List.map_cons, List.pairwise_cons] at hp
      obtain ⟨hafter, hp2⟩ := hp
      by_cases hcur : stepIdOf st = current
      · rw [List.foldl_cons, crtStep_current hb hcur]
        rw [crt_fold_found L acc ?hno]
        case hno =>
          intro x hx hxb heq
          have hlt := hafter (stepIdOf x) (List.mem_map_of_mem _
            (List.mem_filter.mpr ⟨hx, by simp [hxb]⟩))
          rw [hcur, heq] at hlt
          rw [ibefore_irrefl] at hlt
          exact absurd hlt (by simp)
        congr 1
        rw [List.filter_cons_of_pos (by simp [hb]),
          List.filter_cons_of_neg (by rw [hcur]; simp [ibefore_irrefl])]
        congr 1
        apply (List.filter_eq_self.mpr ?_).symm
        intro x hx
        have hlt := hafter (stepIdOf x) (List.mem_map_of_mem _ hx)
        rw [hcur] at hlt
        exact hlt
      · have hmem : current ∈ (L.filter (fun st => st.status != some "blocked")).map stepIdOf := by
          rcases List.mem_cons.mp hm with h | h
          · exact absurd h.symm hcur
          · exact h
        rw [List.foldl_cons, crtStep_skip hb hcur, ih acc hp2 hmem]
        congr 1
        rw [List.filter_cons_of_pos (by simp [hb]),
          List.filter_cons_of_neg ?hlt]
        case hlt =>
          have hbefore := hafter current hmem
          simp [ibefore_asymm hbefore]

end Disclosure

/-! ## Merge characterisation -/

namespace Adaptation

open Model

theorem splitAtFirstMatch_eq_none {steps : List Step} {ident : String} :
    splitAtFirstMatch steps ident = none ↔ ∀ st ∈ steps, stepMatches st ident = false := by
  induction steps with
  | nil => simp [splitAtFirstMatch]
  | cons st rest ih =>
    simp only [splitAtFirstMatch]
    by_cases h : stepMatches st ident = true
    · simp [h]
    · have h' : stepMatches st ident = false := by simpa using h
      simp [h', ih]

theorem splitAtFirstMatch_eq_some {steps : List Step} {ident : String}
    {b : List Step} {m : Step} {a : List Step}
    (h : splitAtFirstMatch steps ident = some (b, m, a)) :
    steps = b ++ m :: a ∧ stepMatches m ident = true ∧
      ∀ x ∈ b, stepMatches x ident = false := by
  induction steps generalizing b with
  | nil => simp [splitAtFirstMatch] at h
  | cons st rest ih =>
    simp only [splitAtFirstMatch] at h
    by_cases hm : stepMatches st ident = true
    · rw [if_pos hm] at h
      simp only [Option.some.injEq, Prod.mk.injEq] at h
      obtain ⟨hb, hm2, ha⟩ := h
      subst hb
      subst hm2
      subst ha
      exact ⟨rfl, hm, by simp⟩
    · rw [if_neg hm] at h
      obtain ⟨⟨b', m', a'⟩, hsp, heq⟩ := Option.map_eq_some'.mp h
      simp only [Prod.mk.injEq] at heq
      obtain ⟨hb, hm2, ha⟩ := heq
      subst hb
      subst hm2
      subst ha
      obtain ⟨he, hmm, hbm⟩ := ih hsp
      refine ⟨by rw [List.cons_append, ← he], hmm, ?_⟩
      intro x hx
      rcases List.mem_cons.mp hx with h | h
      · subst h
        simpa using hm
      · exact hbm x h

theorem processSection_no_match {cur r : String} {alts : List AltContent}
    {acc : List String} {sec : GuideSection}
    (h : splitAtFirstMatch sec.steps cur = none) :
    processSectionForMerge cur r alts acc sec = (sec, acc) := by
  simp [processSectionForMerge, h]

theorem processSection_match {cur r : String} {alts : List AltContent}
    {acc : List String} {sec : GuideSection} {b : List Step} {m : Step} {a : List Step}
    (h : splitAtFirstMatch sec.steps cur = some (b, m, a)) :
    processSectionForMerge cur r alts acc sec =
      ({ sec with steps := b ++
          ({ m with status := some "blocked", blocked_reason := some r,
                    show_as := some "crossed_out" } ::
            ((letters.zip alts).map (fun p => mkAlternativeStep m cur p.1 p.2) ++ a)) },
        acc ++ (letters.zip alts).map (fun p => cur ++ p.1)) := by
  simp [processSectionForMerge, h]

theorem processSection_acc {cur r : String} {alts : List AltContent}
    (acc : List String) (sec : GuideSection) :
    processSectionForMerge cur r alts acc sec =
      ((processSectionForMerge cur r alts [] sec).1,
        acc ++ (processSectionForMerge cur r alts [] sec).2) := by
  cases h : splitAtFirstMatch sec.steps cur with
  | none => simp [processSection_no_match h]
  | some x =>
    obtain ⟨b, m, a⟩ := x
    simp [processSection_match h]

theorem merge_fold {cur r : String} {alts : List AltContent} :
    ∀ (secs : List GuideSection) (accL : List GuideSection) (accI : List String),
      secs.foldl
        (fun (acc : List GuideSection × List String) sec =>
          let res := processSectionForMerge cur r alts acc.2 sec
          (acc.1 ++ [res.1], res.2))
        (accL, accI) =
      (accL ++ secs.map (fun sec => (processSectionForMerge cur r alts [] sec).1),
        accI ++ secs.flatMap (fun sec => (processSectionForMerge cur r alts [] sec).2)) := by
  intro secs
  induction secs with
  | nil => intro accL accI; simp
  | cons sec rest ih =>
    intro accL accI
    simp only [List.foldl_cons]
    rw [processSection_acc accI sec]
    rw [ih]
    simp

theorem splitAtFirstMatch_isSome {steps : List Step} {ident : String}
    (h : ∃ st ∈ steps, stepMatches st ident = true) :
    ∃ b m a, splitAtFirstMatch steps ident = some (b, m, a) := by
  cases hs : splitAtFirstMatch steps ident with
  | none =>
    obtain ⟨st, hmem, hmatch⟩ := h
    rw [splitAtFirstMatch_eq_none] at hs
    rw [hs st hmem] at hmatch
    exact absurd hmatch (by simp)
  | some x =>
    obtain ⟨b, m, a⟩ := x
    exact ⟨b, m, a, rfl⟩

theorem flatMap_nil_of {α β : Type} {f : α → List β} {l : List α}
    (h : ∀ x ∈ l, f x = []) : l.flatMap f = [] := by
  induction l with
  | nil => rfl
  | cons x xs ih =>
    rw [List.flatMap_cons, h x (List.mem_cons_self _ _), List.nil_append]
    exact ih (fun y hy => h y (List.mem_cons_of_mem _ hy))

/-- Under the identifier-uniqueness and no-aliasing hypotheses, a guide whose
step list contains a match for `cur` decomposes into the sections before the
match (match-free), the unique matching section with its split, and the
sections after the match (match-free); the matching step carries `cur` as its
own identifier and nothing after it in its section matches. -/
theorem sections_decomp :
    ∀ (S : List GuideSection) (cur : String),
      (((S.map GuideSection.steps).flatten.map stepIdOf).Nodup) →
      (∀ st ∈ (S.map GuideSection.steps).flatten,
        stepMatches st cur = true → st.step_identifier = some cur) →
      (∃ st ∈ (S.map GuideSection.steps).flatten, stepMatches st cur = true) →
      ∃ pre sec post b m a,
        S = pre ++ sec :: post ∧
        splitAtFirstMatch sec.steps cur = some (b, m, a) ∧
        (∀ s2 ∈ pre, splitAtFirstMatch s2.steps cur = none) ∧
        (∀ s2 ∈ post, splitAtFirstMatch s2.steps cur = none) ∧
        m.step_identifier = some cur ∧
        (∀ x ∈ a, stepMatches x cur = false) := by
  intro S
  induction S with
  | nil =>
    intro cur _ _ hex
    simp at hex
  | cons sec rest ih =>
    intro cur hnd hna hex
    have hflat : ((sec :: rest).map GuideSection.steps).flatten =
        sec.steps ++ (rest.map GuideSection.steps).flatten := by simp
    by_cases hsec : ∃ st ∈ sec.steps, stepMatches st cur = true
    · obtain ⟨b, m, a, hsp⟩ := splitAtFirstMatch_isSome hsec
      obtain ⟨hsteps, hmm, _⟩ := splitAtFirstMatch_eq_some hsp
      have hmmem : m ∈ sec.steps := by
        rw [hsteps]
        exact List.mem_append_right _ (List.mem_cons_self _ _)
      have hmflat : m ∈ ((sec :: rest).map GuideSection.steps).flatten := by
        rw [hflat]
        exact List.mem_append_left _ hmmem
      have hmid : m.step_identifier = some cur := hna m hmflat hmm
      have hmidof : stepIdOf m = cur := by simp [stepIdOf, hmid]
      refine ⟨[], sec, rest, b, m, a, by simp, hsp, by simp, ?_, hmid, ?_⟩
      · intro s2 hs2
        rw [splitAtFirstMatch_eq_none]
        intro st hst
        by_contra hm2
        have hm2t : stepMatches st cur = true := by
          revert hm2
          cases stepMatches st cur <;> simp
        have hstrest : st ∈ (rest.map GuideSection.steps).flatten :=
          List.mem_flatten.mpr ⟨s2.steps, List.mem_map_of_mem _ hs2, hst⟩
        have hstflat : st ∈ ((sec :: rest).map GuideSection.steps).flatten := by
          rw [hflat]
          exact List.mem_append_right _ hstrest
        have hstid : st.step_identifier = some cur := hna st hstflat hm2t
        have hstidof : stepIdOf st = cur := by simp [stepIdOf, hstid]
        rw [hflat, List.map_append] at hnd
        have hdisj := List.disjoint_of_nodup_append hnd
        exact hdisj
          (show cur ∈ List.map stepIdOf sec.steps by
            rw [← hmidof]; exact List.mem_map_of_mem _ hmmem)
          (show cur ∈ List.map stepIdOf (List.map GuideSection.steps rest).flatten by
            rw [← hstidof]; exact List.mem_map_of_mem _ hstrest)
      · intro x hx
        by_contra hxm
        have hxmt : stepMatches x cur = true := by
          revert hxm
          cases stepMatches x cur <;> simp
        have hxsec : x ∈ sec.steps := by
          rw [hsteps]
          exact List.mem_append_right _ (List.mem_cons_of_mem _ hx)
        have hxflat : x ∈ ((sec :: rest).map GuideSection.steps).flatten := by
          rw [hflat]
          exact List.mem_append_left _ hxsec
        have hxid : x.step_identifier = some cur := hna x hxflat hxmt
        have hxidof : stepIdOf x = cur := by simp [stepIdOf, hxid]
        rw [hflat, List.map_append] at hnd
        have hnd1 := List.Nodup.of_append_left hnd
        rw [hsteps, List.map_append, List.map_cons] at hnd1
        have hnd2 := List.Nodup.of_append_right hnd1
        rw [List.nodup_cons] at hnd2
        exact hnd2.1 (by rw [hmidof, ← hxidof]; exact List.mem_map_of_mem _ hx)
    · have hnone : splitAtFirstMatch sec.steps cur = none := by
        rw [splitAtFirstMatch_eq_none]
        intro st hst
        by_contra hc
        refine hsec ⟨st, hst, ?_⟩
        revert hc
        cases stepMatches st cur <;> simp
      have hnd2 : (((rest.map GuideSection.steps).flatten.map stepIdOf)).Nodup := by
        rw [hflat, List.map_append] at hnd
        exact List.Nodup.of_append_right hnd
      have hna2 : ∀ st ∈ (rest.map GuideSection.steps).flatten,
          stepMatches st cur = true → st.step_identifier = some cur := by
        intro st hst hm2
        refine hna st ?_ hm2
        rw [hflat]
        exact List.mem_append_right _ hst
      have hex2 : ∃ st ∈ (rest.map GuideSection.steps).flatten,
          stepMatches st cur = true := by
        obtain ⟨st, hst, hm2⟩ := hex
        rw [hflat] at hst
        rcases List.mem_append.mp hst with h | h
        · exact absurd ⟨st, h, hm2⟩ hsec
        · exact ⟨st, h, hm2⟩
      obtain ⟨pre, sec2, post, b, m, a, hS, hsp, hpre, hpost, hmid, ha⟩ :=
        ih cur hnd2 hna2 hex2
      refine ⟨sec :: pre, sec2, post, b, m, a, by rw [hS]; rfl, hsp, ?_, hpost, hmid, ha⟩
      intro s2 hs2
      rcases List.mem_cons.mp hs2 with h | h
      · rw [h]
        exact hnone
      · exact hpre s2 h

/-- Full characterisation of `merge_alternatives_into_guide` on a guide with a
unique matching section: only that section changes (split around the match,
the match marked blocked, the capped alternatives spliced in right after it),
and the returned identifiers are `cur ++ letter` for the first
`min(N, 6)` candidates. -/
theorem merge_decomp {g : GuideData} {cur r : String} {A : List AltContent}
    {pre post : List GuideSection} {sec : GuideSection} {b a : List Step} {m : Step}
    (hsecs : g.sections = pre ++ sec :: post)
    (hsp : splitAtFirstMatch sec.steps cur = some (b, m, a))
    (hpre : ∀ s2 ∈ pre, splitAtFirstMatch s2.steps cur = none)
    (hpost : ∀ s2 ∈ post, splitAtFirstMatch s2.steps cur = none) :
    merge_alternatives_into_guide g cur r A =
      ({ g with sections := pre ++
          ({ sec with steps := b ++
              ({ m with status := some "blocked", blocked_reason := some r,
                        show_as := some "crossed_out" } ::
                ((letters.zip A).map (fun p => mkAlternativeStep m cur p.1 p.2) ++ a)) }
            :: post) },
        (letters.zip A).map (fun p => cur ++ p.1)) := by
  simp only [merge_alternatives_into_guide]
  rw [merge_fold, hsecs]
  rw [List.map_append, List.map_cons, List.flatMap_append, List.flatMap_cons]
  have hpre1 : pre.map (fun s2 => (processSectionForMerge cur r A [] s2).1) = pre := by
    rw [List.map_congr_left (fun s2 hs2 => by rw [processSection_no_match (hpre s2 hs2)])]
    exact List.map_id _
  have hpost1 : post.map (fun s2 => (processSectionForMerge cur r A [] s2).1) = post := by
    rw [List.map_congr_left (fun s2 hs2 => by rw [processSection_no_match (hpost s2 hs2)])]
    exact List.map_id _
  have hpre2 : pre.flatMap (fun s2 => (processSectionForMerge cur r A [] s2).2) = [] :=
    flatMap_nil_of (fun s2 hs2 => by rw [processSection_no_match (hpre s2 hs2)])
  have hpost2 : post.flatMap (fun s2 => (processSectionForMerge cur r A [] s2).2) = [] :=
    flatMap_nil_of (fun s2 hs2 => by rw [processSection_no_match (hpost s2 hs2)])
  rw [hpre1, hpost1, hpre2, hpost2, processSection_match hsp]
  simp

theorem zip_map_fst_take {α : Type} :
    ∀ (l1 : List String) (l2 : List α) (cur : String),
      ((l1.zip l2).map fun p => cur ++ p.1) = (l1.take l2.length).map (fun l => cur ++ l) := by
  intro l1
  induction l1 with
  | nil => intro l2 cur; simp
  | cons x xs ih =>
    intro l2 cur
    cases l2 with
    | nil => simp
    | cons y ys => simp [ih]

/-- A guide in terms of its flattened step list. -/
theorem allSteps_sections (g : GuideData) :
    allSteps g = (g.sections.map GuideSection.steps).flatten := rfl

/-- From membership of `cur` in the identifier universe of a well-formed
guide, some step matches `cur`. -/
theorem exists_match_of_mem_ids {g : GuideData} (hws : ∀ st ∈ allSteps g,
    st.step_identifier.isSome = true) (hmem : cur ∈ idsOf g) :
    ∃ st ∈ allSteps g, stepMatches st cur = true := by
  obtain ⟨st, hst, hid⟩ := List.mem_map.mp hmem
  refine ⟨st, hst, ?_⟩
  obtain ⟨i, hi⟩ := Option.isSome_iff_exists.mp (hws st hst)
  have : i = cur := by
    rw [← hid]
    simp [stepIdOf, hi]
  subst this
  simp [stepMatches, hi]

end Adaptation

/-! ## Step resolution and the session invariant -/

namespace Disclosure

open Model

theorem findStepInSections_elim :
    ∀ {S : List GuideSection} {i : String} {st : Step} {sec : GuideSection},
      findStepInSections S i = some (st, sec) →
      sec ∈ S ∧ st ∈ sec.steps ∧ stepMatches st i = true := by
  intro S
  induction S with
  | nil => intro i st sec h; simp [findStepInSections] at h
  | cons s2 rest ih =>
    intro i st sec h
    rw [findStepInSections, List.findSome?_cons] at h
    cases hf : s2.steps.find? (fun x => stepMatches x i) with
    | some x =>
      simp only [hf, Option.map_some'] at h
      have hps := Option.some.inj h
      have hx : x = st := congrArg Prod.fst hps
      have hs2 : s2 = sec := congrArg Prod.snd hps
      subst hx
      subst hs2
      refine ⟨List.mem_cons_self _ _, List.mem_of_find?_eq_some hf, ?_⟩
      have hp := List.find?_some hf
      simpa using hp
    | none =>
      simp only [hf, Option.map_none'] at h
      obtain ⟨h1, h2, h3⟩ := ih h
      exact ⟨List.mem_cons_of_mem _ h1, h2, h3⟩

theorem findStepInSections_none_elim :
    ∀ {S : List GuideSection} {i : String},
      findStepInSections S i = none →
      ∀ sec ∈ S, ∀ st ∈ sec.steps, stepMatches st i = false := by
  intro S
  induction S with
  | nil => intro i _ sec hsec; simp at hsec
  | cons s2 rest ih =>
    intro i h sec hsec st hst
    rw [findStepInSections, List.findSome?_cons] at h
    cases hf : s2.steps.find? (fun x => stepMatches x i) with
    | some x => simp [hf] at h
    | none =>
      simp only [hf, Option.map_none'] at h
      rcases List.mem_cons.mp hsec with hh | hh
      · subst hh
        have := List.find?_eq_none.mp hf st hst
        revert this
        cases stepMatches st i <;> simp
      · exact ih h sec hh st hst

theorem mem_allSteps_of_sec {g : GuideData} {u : GuideSection} {st : Step}
    (hsec : u ∈ g.sections) (hst : st ∈ u.steps) : st ∈ allSteps g :=
  List.mem_flatten.mpr ⟨u.steps, List.mem_map_of_mem _ hsec, hst⟩

theorem find_none_elim {g : GuideData} {i : String}
    (h : find_step_by_identifier g i = none) :
    ∀ st ∈ allSteps g, stepMatches st i = false := by
  intro st hst
  obtain ⟨l, hl, hstl⟩ := List.mem_flatten.mp hst
  obtain ⟨sec, hsec, hsecl⟩ := List.mem_map.mp hl
  subst hsecl
  exact findStepInSections_none_elim h sec hsec st hstl

theorem find_isSome_of_match {g : GuideData} {i : String} {st0 : Step}
    (h0 : st0 ∈ allSteps g) (hm : stepMatches st0 i = true) :
    ∃ st sec, find_step_by_identifier g i = some (st, sec) ∧
      st ∈ allSteps g ∧ stepMatches st i = true := by
  cases hf : find_step_by_identifier g i with
  | none =>
    have := find_none_elim hf st0 h0
    rw [hm] at this
    exact absurd this (by simp)
  | some x =>
    obtain ⟨st, sec⟩ := x
    obtain ⟨h1, h2, h3⟩ := findStepInSections_elim hf
    exact ⟨st, sec, rfl, mem_allSteps_of_sec h1 h2, h3⟩

/-- In a well-formed guide a step's own identifier resolves back to that very
step. -/
theorem resolves_to {g : GuideData} {i : String} {st0 : Step}
    (hwf : wellFormedGuide g) (h0 : st0 ∈ allSteps g)
    (hid : st0.step_identifier = some i) :
    ∃ sec, find_step_by_identifier g i = some (st0, sec) := by
  obtain ⟨_, hnd, hna⟩ := hwf
  have hmem : i ∈ idsOf g := List.mem_map.mpr ⟨st0, h0, by simp [stepIdOf, hid]⟩
  have hm0 : stepMatches st0 i = true := by simp [stepMatches, hid]
  obtain ⟨st, sec, hf, hstmem, hstm⟩ := find_isSome_of_match h0 hm0
  have hstid : st.step_identifier = some i := hna i hmem st hstmem hstm
  have heq : st = st0 :=
    List.inj_on_of_nodup_map hnd hstmem h0 (by simp [stepIdOf, hstid, hid])
  exact ⟨sec, by rw [← heq]; exact hf⟩

theorem resolvesUnblocked_of {g : GuideData} {i : String} {st0 : Step}
    (hwf : wellFormedGuide g) (h0 : st0 ∈ allSteps g)
    (hid : st0.step_identifier = some i) (hstat : st0.status ≠ some "blocked") :
    resolvesUnblocked g i = true := by
  obtain ⟨sec, hf⟩ := resolves_to hwf h0 hid
  simp [resolvesUnblocked, hf, hstat]

theorem mem_find_alternatives {g : GuideData} {blocked : String} {st : Step}
    (h : st ∈ find_alternatives_for_step g blocked) :
    st ∈ allSteps g ∧ st.status = some "alternative" ∧
      st.replaces_step_identifier = some blocked ∧ ∃ i, st.step_identifier = some i := by
  simp only [find_alternatives_for_step] at h
  obtain ⟨i, _, hfind⟩ := List.mem_filterMap.mp h
  have hmem := List.mem_of_find?_eq_some hfind
  have hbeq := List.find?_some hfind
  rw [List.mem_filter] at hmem
  obtain ⟨hmem1, hmem2⟩ := hmem
  rw [Bool.and_eq_true, beq_iff_eq, beq_iff_eq] at hmem2
  exact ⟨hmem1, hmem2.1, hmem2.2, ⟨i, beq_iff_eq.mp hbeq⟩⟩

theorem mem_all_ids_active {g : GuideData} {x : String} :
    x ∈ all_step_identifiers g false ↔
      ∃ st ∈ allSteps g, st.status ≠ some "blocked" ∧ stepIdOf st = x := by
  rw [all_step_identifiers, (Sorting.sort_step_identifiers_perm _).mem_iff,
    List.mem_filterMap]
  constructor
  · rintro ⟨st, hst, hf⟩
    by_cases hb : st.status = some "blocked"
    · rw [if_pos (by simp [hb])] at hf
      exact absurd hf (by simp)
    · rw [if_neg (by simp [hb])] at hf
      exact ⟨st, hst, hb, Option.some.inj hf⟩
  · rintro ⟨st, hst, hb, hx⟩
    exact ⟨st, hst, by rw [if_neg (by simp [hb])]; exact congrArg some hx⟩

theorem mem_all_ids_full {g : GuideData} {x : String} :
    x ∈ all_step_identifiers g true ↔ x ∈ idsOf g := by
  rw [all_step_identifiers, (Sorting.sort_step_identifiers_perm _).mem_iff,
    List.mem_filterMap, idsOf, List.mem_map]
  constructor
  · rintro ⟨st, hst, hf⟩
    simp only [Bool.not_true, Bool.false_and, Bool.false_eq_true, if_neg,
      Option.some.injEq, reduceIte] at hf
    exact ⟨st, hst, hf⟩
  · rintro ⟨st, hst, hx⟩
    refine ⟨st, hst, ?_⟩
    simp only [Bool.not_true, Bool.false_and, Bool.false_eq_true, reduceIte]
    exact congrArg some hx

theorem get_next_mem {cur : String} {ids : List String} {n : String}
    (h : Sorting.get_next_identifier cur ids = some n) : n ∈ ids := by
  simp only [Sorting.get_next_identifier] at h
  cases hix : List.indexOf? cur (Sorting.sort_step_identifiers ids) with
  | none => rw [hix] at h; exact absurd h (by simp)
  | some i =>
    simp only [hix] at h
    exact (Sorting.sort_step_identifiers_perm ids).mem_iff.mp (List.getElem?_mem h)

theorem get_prev_mem {cur : String} {ids : List String} {p : String}
    (h : Sorting.get_previous_identifier cur ids = some p) : p ∈ ids := by
  simp only [Sorting.get_previous_identifier] at h
  cases hix : List.indexOf? cur (Sorting.sort_step_identifiers ids) with
  | none => rw [hix] at h; exact absurd h (by simp)
  | some i =>
    simp only [hix] at h
    by_cases hi : i > 0
    · rw [if_pos hi] at h
      exact (Sorting.sort_step_identifiers_perm ids).mem_iff.mp (List.getElem?_mem h)
    · rw [if_neg hi] at h
      exact absurd h (by simp)

/-- Evaluation of `get_current_step_only` when the identifier fails
validation. -/
theorem get_current_invalid {g : GuideData} {s : Session} {t : Nat}
    (h : validate_step_identifier s.current_step_identifier = false) :
    get_current_step_only g s t = (s, .error .invalidStepIdentifier) := by
  simp [get_current_step_only, h]

/-- Evaluation of `get_current_step_only` on a resolving, non-blocked current
step: no redirect, the session is unchanged. -/
theorem get_current_ok_unblocked {g : GuideData} {s : Session} {t : Nat}
    {st : Step} {sec : GuideSection}
    (hval : validate_step_identifier s.current_step_identifier = true)
    (hf : find_step_by_identifier g s.current_step_identifier = some (st, sec))
    (hnb : st.status ≠ some "blocked") :
    get_current_step_only g s t = (s, .ok (.stepView st sec)) := by
  have hbb : (st.status == some "blocked") = false := by simp [hnb]
  simp [get_current_step_only, hval, hf, hbb]

/-- Evaluation of `get_current_step_only` on a blocked current step with
alternatives: the session pointer is redirected to the first alternative and
resolution is retried there. -/
theorem get_current_blocked_redirect {g : GuideData} {s : Session} {now : Nat}
    {st st2 : Step} {sec sec2 : GuideSection} {a0 : Step} {rest : List Step} {i0 : String}
    (hval : validate_step_identifier s.current_step_identifier = true)
    (hf : find_step_by_identifier g s.current_step_identifier = some (st, sec))
    (hb : st.status = some "blocked")
    (halts : find_alternatives_for_step g s.current_step_identifier = a0 :: rest)
    (hai : a0.step_identifier = some i0)
    (hf2 : find_step_by_identifier g i0 = some (st2, sec2)) :
    get_current_step_only g s now =
      ({ s with current_step_identifier := i0, updated_at := now },
        .ok (.stepView st2 sec2)) := by
  have hbb : (st.status == some "blocked") = true := by simp [hb]
  simp [get_current_step_only, hval, hf, hbb, halts, hai, hf2]

/-- `get_current_step_only` preserves the resting-pointer invariant. -/
theorem pointerOk_getView {g : GuideData} {s : Session} {now : Nat}
    (hwf : wellFormedGuide g) (halt : blockedHaveAlternatives g)
    (hmem : s.current_step_identifier ∈ idsOf g) :
    ∀ v, (get_current_step_only g s now).2 = .ok v →
      pointerOk g (get_current_step_only g s now).1 := by
  intro v hok
  by_cases hval : validate_step_identifier s.current_step_identifier = true
  case neg =>
    rw [get_current_invalid (by simpa using hval)] at hok
    exact absurd hok (by simp)
  case pos =>
    obtain ⟨st0, hst0, hm0⟩ := Adaptation.exists_match_of_mem_ids hwf.1 hmem
    obtain ⟨st, sec, hf, hstmem, hstm⟩ := find_isSome_of_match hst0 hm0
    have hstid : st.step_identifier = some s.current_step_identifier :=
      hwf.2.2 _ hmem st hstmem hstm
    by_cases hb : st.status = some "blocked"
    · have halts := halt st hstmem hb
      have hsid : stepIdOf st = s.current_step_identifier := by simp [stepIdOf, hstid]
      rw [hsid] at halts
      cases hA : find_alternatives_for_step g s.current_step_identifier with
      | nil => exact absurd hA halts
      | cons a0 rest =>
        obtain ⟨ha0mem, ha0stat, _, i0, ha0id⟩ :=
          mem_find_alternatives (by rw [hA]; exact List.mem_cons_self a0 rest)
        obtain ⟨sec2, hf2⟩ := resolves_to hwf ha0mem ha0id
        rw [get_current_blocked_redirect hval hf hb hA ha0id hf2]
        intro _
        exact resolvesUnblocked_of hwf ha0mem ha0id (by rw [ha0stat]; decide)
    · rw [get_current_ok_unblocked hval hf hb]
      intro _
      simp [resolvesUnblocked, hf, hb]

/-- `advance_to_next_step` preserves the resting-pointer invariant: either the
session becomes Completed or the pointer moves to an existing non-blocked
step. -/
theorem pointerOk_advance {g : GuideData} {s : Session} {notes : Option String}
    {events : List CompletionEvent} {now : Nat}
    (hwf : wellFormedGuide g) :
    ∀ out, (advance_to_next_step g s notes events now).2 = .ok out →
      pointerOk g (advance_to_next_step g s notes events now).1.1 := by
  intro out hok
  cases hn : Sorting.get_next_identifier s.current_step_identifier
      (all_step_identifiers g false) with
  | none =>
    simp only [advance_to_next_step, hn]
    intro hact
    exact absurd hact (by simp)
  | some n =>
    have hmemn : n ∈ all_step_identifiers g false := get_next_mem hn
    obtain ⟨st', hst', hnb, hsid⟩ := mem_all_ids_active.mp hmemn
    have hid' : st'.step_identifier = some n := by
      obtain ⟨i, hi⟩ := Option.isSome_iff_exists.mp (hwf.1 st' hst')
      have hin : i = n := by rw [← hsid]; simp [stepIdOf, hi]
      rw [hi, hin]
    obtain ⟨sec', hf'⟩ := resolves_to hwf hst' hid'
    by_cases hval : validate_step_identifier n = true
    · have hgc := get_current_ok_unblocked
        (s := { s with current_step_identifier := n, updated_at := now }) (t := now)
        hval hf' hnb
      simp only [advance_to_next_step, hn, hgc]
      intro _
      exact resolvesUnblocked_of hwf hst' hid' hnb
    · have hgc := get_current_invalid (g := g)
        (s := { s with current_step_identifier := n, updated_at := now }) (t := now)
        (by simpa using hval)
      simp only [advance_to_next_step, hn, hgc] at hok
      simp [Except.map] at hok

/-- `go_back_to_previous_step` preserves the resting-pointer invariant. -/
theorem pointerOk_goBack {g : GuideData} {s : Session} {now : Nat}
    (hwf : wellFormedGuide g) (halt : blockedHaveAlternatives g) :
    ∀ v, (go_back_to_previous_step g s now).2 = .ok v →
      pointerOk g (go_back_to_previous_step g s now).1 := by
  intro v hok
  cases hp : Sorting.get_previous_identifier s.current_step_identifier
      (all_step_identifiers g true) with
  | none =>
    simp only [go_back_to_previous_step, hp] at hok
    exact absurd hok (by simp)
  | some p =>
    have hmemp : p ∈ idsOf g := mem_all_ids_full.mp (get_prev_mem hp)
    have hgb : go_back_to_previous_step g s now =
        get_current_step_only g
          { s with current_step_identifier := p, updated_at := now } now := by
      simp [go_back_to_previous_step, hp]
    rw [hgb] at hok ⊢
    exact pointerOk_getView hwf halt hmemp v hok

theorem find?_spliced {P : Step → Bool} {b : List Step} {blk tgt : Step} {rest : List Step}
    (hb : ∀ x ∈ b, P x = false) (hblk : P blk = false) (htgt : P tgt = true) :
    (b ++ blk :: (tgt :: rest)).find? P = some tgt := by
  rw [List.find?_append,
    List.find?_eq_none.mpr (fun x hx => by rw [hb x hx]; simp),
    Option.none_or,
    List.find?_cons_of_neg _ (by rw [hblk]; simp),
    List.find?_cons_of_pos _ htgt]

theorem findStepInSections_append_of_none {S1 S2 : List GuideSection} {i : String}
    (h : ∀ sec ∈ S1, ∀ x ∈ sec.steps, stepMatches x i = false) :
    findStepInSections (S1 ++ S2) i = findStepInSections S2 i := by
  induction S1 with
  | nil => rfl
  | cons s2 rest ih =>
    rw [List.cons_append, findStepInSections, List.findSome?_cons]
    have hfind : s2.steps.find? (fun x => stepMatches x i) = none :=
      List.find?_eq_none.mpr (fun x hx => by
        rw [h s2 (List.mem_cons_self _ _) x hx]; simp)
    simp only [hfind, Option.map_none']
    exact ih (fun sec hsec x hx => h sec (List.mem_cons_of_mem _ hsec) x hx)

end Disclosure

/-! ## The adaptation operation preserves the pointer invariant -/

namespace Adaptation

open Model Disclosure

/-- Record updates do not change the fields `stepMatches` inspects. -/
theorem stepMatches_blockedOf {m : Step} {r i : String} :
    stepMatches { m with status := some "blocked", blocked_reason := some r,
                         show_as := some "crossed_out" } i = stepMatches m i := rfl

/-- `handle_impossible_step` with a successful generation preserves the
resting-pointer invariant: when it succeeds, the session points at the first
created alternative, which exists in the updated guide with status
Alternative. -/
theorem pointerOk_report {st : AdaptState} {prob reason provider : String}
    {alts : List AltContent} {now : Nat}
    (hwf : wellFormedGuide st.guide.guide_data)
    (hmem : st.session.current_step_identifier ∈ idsOf st.guide.guide_data)
    (hfresh : ∀ x ∈ allSteps st.guide.guide_data,
      stepMatches x (st.session.current_step_identifier ++ "a") = false) :
    ∀ resp, (handle_impossible_step st prob reason (.ok (alts, provider)) now).2 = .ok resp →
      pointerOk (handle_impossible_step st prob reason (.ok (alts, provider)) now).1.guide.guide_data
        (handle_impossible_step st prob reason (.ok (alts, provider)) now).1.session := by
  intro resp hok
  obtain ⟨hws, hnd, hna⟩ := hwf
  have hex := exists_match_of_mem_ids hws hmem
  obtain ⟨pre, sec, post, b, m, a, hsecs, hsp, hpre, hpost, hmid, _⟩ :=
    sections_decomp st.guide.guide_data.sections st.session.current_step_identifier hnd
      (fun x hx hm2 => hna _ hmem x hx hm2) hex
  have hmg := merge_decomp (r := prob) (A := alts) hsecs hsp hpre hpost
  obtain ⟨hsteps, _, _⟩ := splitAtFirstMatch_eq_some hsp
  cases halts : alts with
  | nil =>
    rw [halts] at hmg
    simp only [handle_impossible_step, halts, hmg, List.zip_nil_right, List.map_nil] at hok
    exact absurd hok (by simp)
  | cons a0 as =>
    rw [halts] at hmg
    have hzip : letters.zip (a0 :: as) =
        ("a", a0) :: (["b", "c", "d", "e", "f"].zip as) := rfl
    rw [hzip] at hmg
    simp only [handle_impossible_step, halts, hmg, List.map_cons]
    intro _
    -- the post guide resolves `cur ++ "a"` to the first created alternative
    have hsecmem : ∀ s2 ∈ pre, s2 ∈ st.guide.guide_data.sections := by
      intro s2 hs2
      rw [hsecs]
      exact List.mem_append_left _ hs2
    have hbmem : ∀ x ∈ b, x ∈ allSteps st.guide.guide_data := by
      intro x hx
      refine mem_allSteps_of_sec (u := sec) ?_ ?_
      · rw [hsecs]; exact List.mem_append_right _ (List.mem_cons_self _ _)
      · rw [hsteps]; exact List.mem_append_left _ hx
    have hmmem : m ∈ allSteps st.guide.guide_data := by
      refine mem_allSteps_of_sec (u := sec) ?_ ?_
      · rw [hsecs]; exact List.mem_append_right _ (List.mem_cons_self _ _)
      · rw [hsteps]; exact List.mem_append_right _ (List.mem_cons_self _ _)
    have hmatcha : stepMatches
        (mkAlternativeStep m st.session.current_step_identifier "a" a0)
        (st.session.current_step_identifier ++ "a") = true := by
      simp [stepMatches, mkAlternativeStep]
    have hfp : (b ++
        ({ m with status := some "blocked", blocked_reason := some prob,
                  show_as := some "crossed_out" } ::
          (mkAlternativeStep m st.session.current_step_identifier "a" a0 ::
            ((["b", "c", "d", "e", "f"].zip as).map
              (fun p => mkAlternativeStep m st.session.current_step_identifier p.1 p.2) ++ a)))).find?
          (fun x => stepMatches x (st.session.current_step_identifier ++ "a")) =
        some (mkAlternativeStep m st.session.current_step_identifier "a" a0) :=
      find?_spliced (fun x hx => hfresh x (hbmem x hx))
        (by rw [stepMatches_blockedOf]; exact hfresh m hmmem) hmatcha
    show resolvesUnblocked _ _ = true
    simp only [resolvesUnblocked, find_step_by_identifier]
    rw [findStepInSections_append_of_none
      (fun s2 hs2 x hx => hfresh x (mem_allSteps_of_sec (hsecmem s2 hs2) hx))]
    rw [findStepInSections, List.findSome?_cons]
    simp only [List.cons_append]
    rw [hfp]
    simp [mkAlternativeStep]

end Adaptation

/-! ## Claim theorems -/

namespace Claims

open Sorting

/-- C5: On valid identifier strings the comparator `is_identifier_before` is
the strict total order pulled back from the pairs (numeric prefix as an
integer, optional letter suffix) with an absent letter before any present
letter: the concrete eight-element sort comes out as specified; on valid
identifiers the comparator equals the spec-side pair order; it is
irreflexive, transitive, and total up to key equality. -/
theorem C5_identifier_total_order :
    sort_step_identifiers ["10", "1", "2", "1a", "1b", "10a", "0", "2a"] =
      ["0", "1", "1a", "1b", "2", "2a", "10", "10a"] ∧
    (∀ a b n1 l1 n2 l2, parseIdentifier a = some (n1, l1) →
      parseIdentifier b = some (n2, l2) →
      is_identifier_before a b = (decide (n1 < n2) || (n1 == n2 && letterSuffixLt l1 l2))) ∧
    (∀ a, is_identifier_before a a = false) ∧
    (∀ a b c, is_identifier_before a b = true → is_identifier_before b c = true →
      is_identifier_before a c = true) ∧
    (∀ a b, (parseIdentifier a).isSome = true → (parseIdentifier b).isSome = true →
      is_identifier_before a b = true ∨ is_identifier_before b a = true ∨
        natural_sort_key a = natural_sort_key b) := by
  refine ⟨by decide, ?_, ?_, ?_, ?_⟩
  · intro a b n1 l1 n2 l2 ha hb
    rw [is_identifier_before, natural_sort_key_valid ha, natural_sort_key_valid hb]
    show (decide (n1 < n2) || (n1 == n2 && pyStringLt l1 l2)) = _
    rw [suffix_lt_eq (parse_suffix_shape ha) (parse_suffix_shape hb)]
  · intro a
    exact keyLt_irrefl _
  · intro a b c h1 h2
    exact keyLt_trans h1 h2
  · intro a b _ _
    cases hab : is_identifier_before a b with
    | true => exact Or.inl rfl
    | false =>
      cases hba : is_identifier_before b a with
      | true => exact Or.inr (Or.inl rfl)
      | false => exact Or.inr (Or.inr (keyLt_connex hab hba))

/-- Witness for C5 at concrete inputs. -/
theorem C5_witness :
    (is_identifier_before "1" "1a" =
      (decide ((1 : Nat) < 1) || ((1 : Nat) == 1 && letterSuffixLt "" "a"))) ∧
    is_identifier_before "0" "2" = true ∧
    (is_identifier_before "0" "1" = true ∨ is_identifier_before "1" "0" = true ∨
      natural_sort_key "0" = natural_sort_key "1") :=
  ⟨C5_identifier_total_order.2.1 "1" "1a" 1 "" 1 "a" (by decide) (by decide),
   C5_identifier_total_order.2.2.2.1 "0" "1" "2" (by decide) (by decide),
   C5_identifier_total_order.2.2.2.2 "0" "1" (by decide) (by decide)⟩

/-- C6 counterexample: the malformed string `"x"` does NOT sort after every
valid identifier: `"1000000"` is valid, yet `is_identifier_before "1000000"
"x"` is `false`, because the fallback key `(999999, s)` ranks malformed
strings below valid identifiers with numeric prefix 999999 or more. -/
theorem C6_counterexample :
    (parseIdentifier "1000000").isSome = true ∧
    (parseIdentifier "x").isSome = false ∧
    is_identifier_before "1000000" "x" = false :=
  ⟨by decide, by decide, by decide⟩

/-- C6 (amended): the comparator is total on all strings, a malformed string
is keyed `(999999, itself)`, and it therefore sorts after every valid
identifier whose numeric prefix is below 999999 (not after every valid
identifier). -/
theorem C6_malformed_sorts_late :
    (∀ m, parseIdentifier m = none → natural_sort_key m = (999999, m)) ∧
    (∀ v m n l, parseIdentifier v = some (n, l) → n < 999999 →
      parseIdentifier m = none → is_identifier_before v m = true) := by
  constructor
  · intro m hm
    exact natural_sort_key_invalid hm
  · intro v m n l hv hn hm
    rw [is_identifier_before, natural_sort_key_valid hv, natural_sort_key_invalid hm]
    simp [keyLt]
    omega

/-- Witness for C6 (amended) at concrete inputs. -/
theorem C6_witness : is_identifier_before "5" "x" = true :=
  C6_malformed_sorts_late.2 "5" "x" 5 "" (by decide) (by decide) (by decide)

/-- C9: on duplicate-free lists of valid identifiers, `get_next_identifier`
and `get_previous_identifier` are mutually inverse on interior elements, and
both return `none` for an identifier absent from the list. -/
theorem C9_adjacency_inverses :
    ∀ ids : List String, ids.Nodup → (∀ x ∈ ids, (parseIdentifier x).isSome = true) →
      (∀ x y, get_next_identifier x ids = some y →
        get_previous_identifier y ids = some x) ∧
      (∀ x y, get_previous_identifier x ids = some y →
        get_next_identifier y ids = some x) ∧
      (∀ c, c ∉ ids →
        get_next_identifier c ids = none ∧ get_previous_identifier c ids = none) := by
  intro ids hnd _hvalid
  have hperm := sort_step_identifiers_perm ids
  have hsnd : (sort_step_identifiers ids).Nodup := hperm.nodup_iff.mpr hnd
  refine ⟨?_, ?_, ?_⟩
  · intro x y h
    simp only [get_next_identifier] at h
    cases hix : List.indexOf? x (sort_step_identifiers ids) with
    | none => rw [hix] at h; exact absurd h (by simp)
    | some i =>
      simp only [hix] at h
      have hy : List.indexOf? y (sort_step_identifiers ids) = some (i + 1) :=
        indexOf?_of_getElem? hsnd h
      have hx' : (sort_step_identifiers ids)[i]? = some x := getElem?_of_indexOf? hix
      simp only [get_previous_identifier, hy]
      rw [if_pos (by omega)]
      simpa using hx'
  · intro x y h
    simp only [get_previous_identifier] at h
    cases hix : List.indexOf? x (sort_step_identifiers ids) with
    | none => rw [hix] at h; exact absurd h (by simp)
    | some i =>
      simp only [hix] at h
      by_cases hi : i > 0
      · rw [if_pos hi] at h
        have hy : List.indexOf? y (sort_step_identifiers ids) = some (i - 1) :=
          indexOf?_of_getElem? hsnd h
        have hx' : (sort_step_identifiers ids)[i]? = some x := getElem?_of_indexOf? hix
        simp only [get_next_identifier, hy]
        rw [show i - 1 + 1 = i by omega]
        exact hx'
      · rw [if_neg hi] at h
        exact absurd h (by simp)
  · intro c hc
    have hcs : c ∉ sort_step_identifiers ids := fun hm => hc (hperm.mem_iff.mp hm)
    have hix := indexOf?_eq_none hcs
    constructor
    · simp [get_next_identifier, hix]
    · simp [get_previous_identifier, hix]

/-- C10: on valid step identifiers the adaptation engine's private order test
`_is_step_before` agrees with the ordering component's `is_identifier_before`
(it returns that Boolean without raising). -/
theorem C10_is_step_before_refines :
    ∀ a b, (parseIdentifier a).isSome = true → (parseIdentifier b).isSome = true →
      Adaptation.is_step_before a b = some (is_identifier_before a b) := by
  intro a b ha hb
  obtain ⟨⟨na, la⟩, hpa⟩ := Option.isSome_iff_exists.mp ha
  obtain ⟨⟨nb, lb⟩, hpb⟩ := Option.isSome_iff_exists.mp hb
  rw [Adaptation.is_step_before, Adaptation.adaptKey_valid hpa, Adaptation.adaptKey_valid hpb,
    is_identifier_before, natural_sort_key_valid hpa, natural_sort_key_valid hpb]
  by_cases hn : na = nb
  · subst hn
    by_cases hl : la = lb
    · subst hl
      simp [Adaptation.pyListLt, Adaptation.pyValEq, keyLt, pyStringLt_irrefl]
    · simp [Adaptation.pyListLt, Adaptation.pyValEq, Adaptation.pyValLt, keyLt, hl]
  · simp [Adaptation.pyListLt, Adaptation.pyValEq, Adaptation.pyValLt, keyLt, hn]

/-- Witness for C10 at concrete inputs. -/
theorem C10_witness :
    Adaptation.is_step_before "2" "10" = some (is_identifier_before "2" "10") ∧
    is_identifier_before "2" "10" = true :=
  ⟨C10_is_step_before_refines "2" "10" (by decide) (by decide), by decide⟩

/-- Witness for C9 at concrete inputs. -/
theorem C9_witness :
    get_previous_identifier "2" ["2", "1"] = some "1" ∧
    get_next_identifier "1" ["2", "1"] = some "2" ∧
    get_next_identifier "7" ["2", "1"] = none :=
  ⟨(C9_adjacency_inverses ["2", "1"] (by decide) (by decide)).1 "1" "2" (by decide),
   (C9_adjacency_inverses ["2", "1"] (by decide) (by decide)).2.1 "2" "1" (by decide),
   ((C9_adjacency_inverses ["2", "1"] (by decide) (by decide)).2.2 "7" (by decide)).1⟩

/-- C3: reporting a step with identifier `cur` blocked on a well-formed guide
with `N` generated alternative contents creates exactly `min(N, 6)` new steps
with identifiers `cur ++ "a"`, `cur ++ "b"`, ... in order (candidates beyond
the sixth are discarded), each of status Alternative and with the `replaces`
back-reference `cur`; the original step stays in the structure — now with
status Blocked and the problem as its blocked-reason — and the total step
count grows by exactly `min(N, 6)` (nothing is deleted). -/
theorem C3_merge_alternatives :
    ∀ (g : Model.GuideData) (cur reason : String) (alts : List Adaptation.AltContent),
      Model.wellFormedGuide g → cur ∈ Model.idsOf g →
      (Adaptation.merge_alternatives_into_guide g cur reason alts).2 =
        (Adaptation.letters.take alts.length).map (fun l => cur ++ l) ∧
      (Adaptation.merge_alternatives_into_guide g cur reason alts).2.length =
        min alts.length 6 ∧
      (∀ i ∈ (Adaptation.merge_alternatives_into_guide g cur reason alts).2,
        ∃ stNew ∈ Model.allSteps (Adaptation.merge_alternatives_into_guide g cur reason alts).1,
          stNew.step_identifier = some i ∧ stNew.status = some "alternative" ∧
          stNew.replaces_step_identifier = some cur) ∧
      (∃ stB ∈ Model.allSteps (Adaptation.merge_alternatives_into_guide g cur reason alts).1,
        stB.step_identifier = some cur ∧ stB.status = some "blocked" ∧
        stB.blocked_reason = some reason) ∧
      (Model.allSteps (Adaptation.merge_alternatives_into_guide g cur reason alts).1).length =
        (Model.allSteps g).length + min alts.length 6 := by
  intro g cur reason alts hwf hmem
  obtain ⟨hws, hnd, hna⟩ := hwf
  have hex : ∃ st ∈ Model.allSteps g, Model.stepMatches st cur = true :=
    Adaptation.exists_match_of_mem_ids hws hmem
  obtain ⟨pre, sec, post, b, m, a, hsecs, hsp, hpre, hpost, hmid, _⟩ :=
    Adaptation.sections_decomp g.sections cur hnd (fun st hst hm => hna cur hmem st hst hm) hex
  have hmg := Adaptation.merge_decomp (r := reason) (A := alts) hsecs hsp hpre hpost
  obtain ⟨hsteps, _, _⟩ := Adaptation.splitAtFirstMatch_eq_some hsp
  have hsteps_merged : Model.allSteps (Adaptation.merge_alternatives_into_guide g cur reason alts).1 =
      (pre.map Model.GuideSection.steps).flatten ++
        (b ++ ({ m with status := some "blocked", blocked_reason := some reason,
                        show_as := some "crossed_out" } ::
          ((Adaptation.letters.zip alts).map
            (fun p => Adaptation.mkAlternativeStep m cur p.1 p.2) ++ a))) ++
        (post.map Model.GuideSection.steps).flatten := by
    rw [hmg, Adaptation.allSteps_sections]
    simp [List.map_append, List.flatten_append]
  have hsteps_orig : Model.allSteps g =
      (pre.map Model.GuideSection.steps).flatten ++ (b ++ m :: a) ++
        (post.map Model.GuideSection.steps).flatten := by
    rw [Adaptation.allSteps_sections, hsecs]
    simp [List.map_append, List.flatten_append, hsteps]
  refine ⟨?_, ?_, ?_, ?_, ?_⟩
  · rw [hmg]
    exact Adaptation.zip_map_fst_take _ _ _
  · rw [hmg]
    simp [List.length_zip, Adaptation.letters, Nat.min_comm]
  · intro i hi
    rw [hmg] at hi
    obtain ⟨p, hp, hpi⟩ := List.mem_map.mp hi
    refine ⟨Adaptation.mkAlternativeStep m cur p.1 p.2, ?_, by rw [← hpi]; rfl, rfl, rfl⟩
    rw [hsteps_merged]
    refine List.mem_append_left _ (List.mem_append_right _ ?_)
    refine List.mem_append_right _ (List.mem_cons_of_mem _ ?_)
    exact List.mem_append_left _ (List.mem_map_of_mem _ hp)
  · refine ⟨{ m with status := some "blocked", blocked_reason := some reason,
                     show_as := some "crossed_out" }, ?_, hmid, rfl, rfl⟩
    rw [hsteps_merged]
    refine List.mem_append_left _ (List.mem_append_right _ ?_)
    exact List.mem_append_right _ (List.mem_cons_self _ _)
  · rw [hsteps_merged, hsteps_orig]
    simp only [List.length_append, List.length_cons, List.length_map, List.length_zip]
    have : Adaptation.letters.length = 6 := rfl
    omega

/-- Witness for C3: blocking `"1"` in the three-step guide with two generated
alternatives yields exactly `"1a"` and `"1b"`. -/
theorem C3_witness :
    (Adaptation.merge_alternatives_into_guide Fixtures.guide3 "1" "why" Fixtures.altsTwo).2 =
      (Adaptation.letters.take Fixtures.altsTwo.length).map (fun l => "1" ++ l) ∧
    (Adaptation.merge_alternatives_into_guide Fixtures.guide3 "1" "why" Fixtures.altsTwo).2 =
      ["1a", "1b"] :=
  ⟨(C3_merge_alternatives Fixtures.guide3 "1" "why" Fixtures.altsTwo
      (by decide) (by decide)).1,
    by decide⟩

/-- C7: for every guide whose non-blocked steps appear in document order
strictly sorted by the identifier comparator (the data-model ordering
invariant) and whose current identifier resolves among them, the estimated
remaining minutes computed by the disclosure engine equal the sum of the
durations of exactly the non-blocked steps strictly after the current
identifier in comparator order; blocked steps contribute nothing. -/
theorem C7_remaining_time :
    ∀ (g : Model.GuideData) (current : String),
      List.Pairwise (fun a b => is_identifier_before a b = true)
        ((Model.docActiveSteps g).map Model.stepIdOf) →
      current ∈ (Model.docActiveSteps g).map Model.stepIdOf →
      Disclosure.calculate_remaining_time g current =
        Model.remainingMinutesSpec g current := by
  intro g current hp hm
  have h := Disclosure.crt_fold_search (Model.allSteps g) 0 hp hm
  rw [show Disclosure.calculate_remaining_time g current =
    0 + Model.remainingMinutesSpec g current from h]
  exact Nat.zero_add _

/-- Witness for C7 on the adapted guide: from the alternative `"1a"` only the
still-active steps `"2"` (7 minutes) lie strictly ahead, the blocked `"1"`
contributing nothing. -/
theorem C7_witness :
    Disclosure.calculate_remaining_time Fixtures.guideBlocked "1a" =
      Model.remainingMinutesSpec Fixtures.guideBlocked "1a" ∧
    Disclosure.calculate_remaining_time Fixtures.guideBlocked "1a" = 7 :=
  ⟨C7_remaining_time Fixtures.guideBlocked "1a" (by decide) (by decide), by decide⟩

/-- C4 counterexample: a Paused session sitting on the last active step is
advanced; the disclosure service sets its status to Completed — the
Paused→Completed transition the table forbids — and reports success instead
of InvalidTransition. -/
theorem C4_counterexample :
    Sessions.is_valid_status_transition .paused .completed = false ∧
    (Disclosure.advance_to_next_step Fixtures.guide3
        { current_step_identifier := "2", status := .paused } none [] 1).1.1.status =
      Model.SessionStatus.completed ∧
    (Disclosure.advance_to_next_step Fixtures.guide3
        { current_step_identifier := "2", status := .paused } none [] 1).2 =
      .ok .completedGuide :=
  ⟨by decide, by decide, by decide⟩

/-- C4 (amended): `update_session` enforces exactly the claimed transition
table — Completed is terminal, invalid requests fail with the typed error and
leave the session untouched, valid requests set the new status — but
`advance_to_next_step` bypasses the table: whenever no next active identifier
exists it sets the status to Completed unconditionally, whatever the current
status is. -/
theorem C4_transition_table :
    (∀ a b : Model.SessionStatus, Sessions.is_valid_status_transition a b = true ↔
      ((a = .active ∧ (b = .paused ∨ b = .completed ∨ b = .failed)) ∨
        (a = .paused ∧ (b = .active ∨ b = .failed)) ∨
        (a = .failed ∧ b = .active))) ∧
    (∀ b : Model.SessionStatus, Sessions.is_valid_status_transition .completed b = false) ∧
    (∀ (s : Model.Session) (req : Model.SessionStatus) (now : Nat),
      Sessions.is_valid_status_transition s.status req = false →
      Sessions.update_session s (some req) now = (s, .error .invalidSessionState)) ∧
    (∀ (s : Model.Session) (req : Model.SessionStatus) (now : Nat),
      Sessions.is_valid_status_transition s.status req = true →
      (Sessions.update_session s (some req) now).1.status = req ∧
      (Sessions.update_session s (some req) now).2 =
        .ok (Sessions.update_session s (some req) now).1) ∧
    (∀ g s notes events now,
      Sorting.get_next_identifier s.current_step_identifier
          (Disclosure.all_step_identifiers g false) = none →
      (Disclosure.advance_to_next_step g s notes events now).1.1.status = .completed) := by
  refine ⟨?_, ?_, ?_, ?_, ?_⟩
  · intro a b
    cases a <;> cases b <;> simp [Sessions.is_valid_status_transition]
  · intro b
    cases b <;> rfl
  · intro s req now h
    simp [Sessions.update_session, h]
  · intro s req now h
    simp [Sessions.update_session, h]
  · intro g s notes events now h
    simp [Disclosure.advance_to_next_step, h]

/-- Witness for C4 (amended) at concrete inputs. -/
theorem C4_witness :
    Sessions.update_session
        { current_step_identifier := "0", status := .completed } (some .active) 5 =
      ({ current_step_identifier := "0", status := .completed },
        .error .invalidSessionState) ∧
    (Disclosure.advance_to_next_step Fixtures.guide3
        { current_step_identifier := "2", status := .paused } none [] 1).1.1.status =
      Model.SessionStatus.completed :=
  ⟨C4_transition_table.2.2.1 _ .active 5 (by decide),
   C4_transition_table.2.2.2.2 Fixtures.guide3
     { current_step_identifier := "2", status := .paused } none [] 1 (by decide)⟩

/-- C8 counterexample: advancing from `"0"` (a next step exists, the pointer
moves to `"1"`) appends nothing to the completion-event history — the claimed
completion event (identifier, notes, timestamp) never materialises. -/
theorem C8_counterexample :
    (Disclosure.advance_to_next_step Fixtures.guide3 { current_step_identifier := "0" }
        (some "notes") [] 7).1.2 = ([] : List Disclosure.CompletionEvent) ∧
    (Disclosure.advance_to_next_step Fixtures.guide3 { current_step_identifier := "0" }
        (some "notes") [] 7).1.1.current_step_identifier = "1" :=
  ⟨by decide, by decide⟩

/-- C8 (amended): `_log_step_completion` is an unimplemented no-op, and it is
not even invoked on the Completed outcome, so every call to advance leaves the
completion-event history exactly as it was. -/
theorem C8_no_completion_event :
    (∀ events step_identifier notes,
      Disclosure.log_step_completion events step_identifier notes = events) ∧
    (∀ g s notes events now,
      (Disclosure.advance_to_next_step g s notes events now).1.2 = events) := by
  refine ⟨fun _ _ _ => rfl, ?_⟩
  intro g s notes events now
  cases hn : Sorting.get_next_identifier s.current_step_identifier
      (Disclosure.all_step_identifiers g false) with
  | none => simp [Disclosure.advance_to_next_step, hn]
  | some next => simp [Disclosure.advance_to_next_step, hn, Disclosure.log_step_completion]

/-- C2: the resting-pointer invariant is violated by the program.  Reporting
step `"1"` of the three-step guide blocked with a successful but empty
generation commits the guide with `"1"` marked Blocked and no alternatives
while the session — still Active — keeps pointing at `"1"`: `pointerOk` fails
on the resulting state.  The violation is not transient: the next
get-current-view finds no alternatives to redirect to, completes successfully
with the Blocked step as the returned view, and leaves the pointer resting on
it. -/
theorem C2_pointer_rests_on_blocked :
    Fixtures.emptyGenState.session = Fixtures.adaptState3.session ∧
    Fixtures.emptyGenState.session.status = Model.SessionStatus.active ∧
    Fixtures.emptyGenState.session.current_step_identifier = "1" ∧
    (∃ stB ∈ Model.allSteps Fixtures.emptyGenState.guide.guide_data,
      stB.step_identifier = some "1" ∧ stB.status = some "blocked") ∧
    ¬ Model.pointerOk Fixtures.emptyGenState.guide.guide_data
        Fixtures.emptyGenState.session ∧
    (∃ stB secB,
      Disclosure.get_current_step_only Fixtures.emptyGenState.guide.guide_data
          Fixtures.emptyGenState.session 10 =
        (Fixtures.emptyGenState.session, .ok (.stepView stB secB)) ∧
      stB.status = some "blocked") ∧
    ¬ Model.pointerOk Fixtures.emptyGenState.guide.guide_data
        (Disclosure.get_current_step_only Fixtures.emptyGenState.guide.guide_data
          Fixtures.emptyGenState.session 10).1 :=
  ⟨by decide, by decide, by decide, by decide, by decide,
   ⟨{ Fixtures.mkStep "1" 1 5 with
        status := some "blocked", blocked_reason := some "p",
        show_as := some "crossed_out" },
    { section_id := "s1", section_title := "S", section_description := "",
      section_order := 1,
      steps := [Fixtures.mkStep "0" 0 3,
        { Fixtures.mkStep "1" 1 5 with
            status := some "blocked", blocked_reason := some "p",
            show_as := some "crossed_out" },
        Fixtures.mkStep "2" 2 7] },
    by decide, by decide⟩,
   by decide⟩

/-- C1: the claim is right about the generator-failure leg — a failed or
timed-out collaborator call leaves the loaded (guide, session) pair literally
untouched and surfaces an error — but the code violates the empty-alternatives
leg: with a successful generation of zero alternatives the blocked-step guide
mutation and the history entry are committed before the `IndexError` on
`alternative_identifiers[0]` is raised, so the guide is modified while the
session is not (no all-or-nothing behaviour, no typed AdaptationFailed). -/
theorem C1_adaptation_atomicity :
    (∀ st problem reason now,
      Adaptation.handle_impossible_step st problem reason (.error ()) now =
        (st, .error .generatorFailed)) ∧
    (Adaptation.handle_impossible_step Fixtures.adaptState3 "p" "r" (.ok ([], "prov")) 9).2 =
      .error .emptyAlternativesIndexError ∧
    (Adaptation.handle_impossible_step Fixtures.adaptState3 "p" "r" (.ok ([], "prov")) 9).1.guide ≠
      Fixtures.adaptState3.guide ∧
    (Adaptation.handle_impossible_step Fixtures.adaptState3 "p" "r" (.ok ([], "prov")) 9).1.session =
      Fixtures.adaptState3.session :=
  ⟨fun _ _ _ _ => rfl, by decide, by decide, by decide⟩

end Claims

end VisGuide
